import Mathlib

/-!
Verification of the TransitCreator schematic-map layout engine.

This file gives a shallow embedding, in Lean 4, of the geometric core of the
TransitCreator editor (the MapCanvas component plus the station-deletion
handler of the application shell) and proves the frozen specification claims
about it.

Modelling conventions:
* JavaScript numbers are modelled as exact rationals wherever the source only
  performs field operations and comparisons.  Euclidean lengths of the
  octolinear router legs always have the exact form q + r * sqrt 2 with
  rational q and r, so they are represented by the pair (q, r) (structure
  RootTwo below); all comparisons the source makes on such lengths are
  decidable over the rationals, and bridge lemmas relate every decision
  procedure to the intended real-number semantics.
* The direction-normalisation and offset-intersection code divides by real
  square roots, so that part of the pipeline (getDir, getLineIntersection,
  getLinePath, getStationShape) is embedded over the real numbers.
* JavaScript Array.prototype.sort with a consistent comparator is a stable
  sort; it is modelled by List.insertionSort, which is stable.
-/

namespace TransitCreator

/-- A point of the schematic plane with exact rational coordinates,
mirroring the Point record of the source. -/
structure Pt where
  x : ℚ
  y : ℚ
deriving DecidableEq, Repr

/-- Exact representation of a real number of the form q + r * sqrt 2.
Every path length computed by the octolinear router has this form. -/
structure RootTwo where
  q : ℚ
  r : ℚ
deriving DecidableEq, Repr

/-- Componentwise addition of RootTwo values. -/
def RootTwo.add (x y : RootTwo) : RootTwo := ⟨x.q + y.q, x.r + y.r⟩

/-- Componentwise subtraction of RootTwo values. -/
def RootTwo.sub (x y : RootTwo) : RootTwo := ⟨x.q - y.q, x.r - y.r⟩

instance : Add RootTwo := ⟨RootTwo.add⟩

instance : Sub RootTwo := ⟨RootTwo.sub⟩

/-- The real number denoted by a RootTwo value. -/
noncomputable def RootTwo.toReal (x : RootTwo) : ℝ := (x.q : ℝ) + (x.r : ℝ) * Real.sqrt 2

/-- Math.abs on exact rationals, written with an if so that it evaluates by
kernel reduction. -/
def qabs (q : ℚ) : ℚ := if q < 0 then -q else q

/-- Decides whether a + b * sqrt 2 is negative, by sign analysis and squaring. -/
def rtNeg (a b : ℚ) : Bool :=
  if b = 0 then decide (a < 0)
  else if 0 < b then decide (a < 0 ∧ 2 * b ^ 2 < a ^ 2)
  else decide (a < 0 ∨ a ^ 2 < 2 * b ^ 2)

/-- Decides x < y for RootTwo values. -/
def RootTwo.ltb (x y : RootTwo) : Bool := rtNeg (x.q - y.q) (x.r - y.r)

/-- Decides x ≤ y for RootTwo values. -/
def RootTwo.leb (x y : RootTwo) : Bool := !(RootTwo.ltb y x)

/-- Exact value of Math.hypot for the leg vectors produced by the octolinear
router: those legs are always axis-aligned or at exactly 45 degrees, where the
Euclidean norm is |dx| + |dy| or |dx| * sqrt 2.  (The final catch-all branch is
never reached by the router; it is a Manhattan over-approximation.) -/
def hypotRT (dx dy : ℚ) : RootTwo :=
  if dy = 0 then ⟨qabs dx, 0⟩
  else if dx = 0 then ⟨qabs dy, 0⟩
  else if qabs dx = qabs dy then ⟨0, qabs dx⟩
  else ⟨qabs dx + qabs dy, 0⟩

/-- Decides len < 1.5 * sqrt s (for nonnegative len components and s), which is
the candidate-overshoot filter of the router: len < direct * 1.5 where direct
is the Euclidean distance and s its square. -/
def ltDirect (len : RootTwo) (s : ℚ) : Bool :=
  rtNeg (len.q ^ 2 + 2 * len.r ^ 2 - 9 / 4 * s) (2 * len.q * len.r)

/-- Decides |q + r * sqrt 2| < 1, the tie tolerance of the router. -/
def absLt1 (x : RootTwo) : Bool :=
  rtNeg (x.q - 1) x.r && rtNeg (-x.q - 1) (-x.r)

/-- A routing candidate: the polyline points, its total length and its
direction family, exactly the record pushed by tryPath in the source. -/
structure Cand where
  points : List Pt
  len : RootTwo
  horizontalFirst : Bool
deriving DecidableEq, Repr

instance : Inhabited Cand := ⟨⟨[], ⟨0, 0⟩, false⟩⟩

/-- Mirror of the tryPath helper: records the elbow polyline [p1, mid, p2],
its length (sum of the two leg norms) and the direction family. -/
def tryPath (p1 p2 mid : Pt) (hf : Bool) : Cand :=
  { points := [p1, mid, p2]
    len := hypotRT (mid.x - p1.x) (mid.y - p1.y) + hypotRT (p2.x - mid.x) (p2.y - mid.y)
    horizontalFirst := hf }

/-- The eight raw octolinear elbow candidates generated by tryCandidates, in
source order: horizontal-then-diagonal (two diagonal signs), vertical-then-
diagonal, diagonal-then-horizontal, diagonal-then-vertical. -/
def octoCandidates (p1 p2 : Pt) : List Cand :=
  [ tryPath p1 p2 ⟨p2.x + (p1.y - p2.y), p1.y⟩ true,
    tryPath p1 p2 ⟨p2.x - (p1.y - p2.y), p1.y⟩ true,
    tryPath p1 p2 ⟨p1.x, p2.y + (p1.x - p2.x)⟩ false,
    tryPath p1 p2 ⟨p1.x, p2.y - (p1.x - p2.x)⟩ false,
    tryPath p1 p2 ⟨p1.x + (p2.y - p1.y), p2.y⟩ false,
    tryPath p1 p2 ⟨p1.x - (p2.y - p1.y), p2.y⟩ false,
    tryPath p1 p2 ⟨p2.x, p1.y + (p2.x - p1.x)⟩ true,
    tryPath p1 p2 ⟨p2.x, p1.y - (p2.x - p1.x)⟩ true ]

/-- Model of a stable JavaScript Array.prototype.sort with comparator-induced
boolean order le (le a b means the comparator returns a nonpositive value). -/
def jsSort (le : α → α → Bool) (l : List α) : List α :=
  l.insertionSort fun a b => le a b = true

/-- Order induced by the numeric comparator (a, b) => a.len - b.len. -/
def lenLe (a b : Cand) : Bool := RootTwo.leb a.len b.len

/-- Order induced by the alternate-route tie-break comparator: candidates of
the preferred family (horizontal-first unless alternate) come first. -/
def famLe (alternate : Bool) (a b : Cand) : Bool :=
  if a.horizontalFirst == b.horizontalFirst then true
  else if alternate then !a.horizontalFirst else a.horizontalFirst

/-- The candidates surviving the overshoot filter
(total length below 1.5 times the direct distance). -/
def octoValid (p1 p2 : Pt) : List Cand :=
  (octoCandidates p1 p2).filter fun c =>
    ltDirect c.len ((p2.x - p1.x) ^ 2 + (p2.y - p1.y) ^ 2)

/-- The surviving candidates sorted by total length. -/
def octoSorted (p1 p2 : Pt) : List Cand := jsSort lenLe (octoValid p1 p2)

/-- The length of the shortest surviving candidate (valid[0].len after the
in-place sort of the source). -/
def octoShortest (p1 p2 : Pt) : RootTwo := (octoSorted p1 p2).headI.len

/-- The best candidates: survivors within tolerance 1 of the minimum length,
in sorted order, as in the source bestCandidates. -/
def octoBest (p1 p2 : Pt) : List Cand :=
  (octoSorted p1 p2).filter fun c => absLt1 (c.len - octoShortest p1 p2)

/-- Mirror of getOctolinearSegment: returns the two endpoints when they are
already aligned (horizontally, vertically or at 45 degrees, within tolerance
1), otherwise the best elbow polyline, preferring the family selected by the
alternate flag; falls back to the direct segment when no candidate survives. -/
def getOctolinearSegment (p1 p2 : Pt) (alternate : Bool) : List Pt :=
  if qabs (p2.x - p1.x) < 1 ∨ qabs (p2.y - p1.y) < 1 ∨
      qabs (qabs (p2.x - p1.x) - qabs (p2.y - p1.y)) < 1 then [p1, p2]
  else if octoValid p1 p2 = [] then [p1, p2]
  else (jsSort (famLe alternate) (octoBest p1 p2)).headI.points


/-- Octolinearity of the directed segment from a to b: strictly horizontal,
strictly vertical, or at exactly 45 degrees. -/
def IsOctoDir (a b : Pt) : Prop :=
  (b.y = a.y ∧ b.x ≠ a.x) ∨ (b.x = a.x ∧ b.y ≠ a.y) ∨
    (|b.x - a.x| = |b.y - a.y| ∧ b ≠ a)

/-- Euclidean length of the segment from a to b, over the reals. -/
noncomputable def segLenR (a b : Pt) : ℝ :=
  Real.sqrt (((b.x - a.x : ℚ) : ℝ) ^ 2 + ((b.y - a.y : ℚ) : ℝ) ^ 2)

/-- The fixed distance between parallel line centers (LINE_SPACING in
constants.ts). -/
def LINE_SPACING : ℚ := 7

/-- JavaScript Math.round: round half toward positive infinity. -/
def jsRound (q : ℚ) : ℤ := ⌊q + 1 / 2⌋

/-- Mirror of pointKey: the rounded-coordinate string key of a point. -/
def pointKey (p : Pt) : String :=
  toString (jsRound p.x) ++ "," ++ toString (jsRound p.y)

/-- The normalized, direction-independent key of an undirected segment, as
built both in register and in getLineOffset. -/
def segKey (pA pB : Pt) : String :=
  let kA := pointKey pA
  let kB := pointKey pB
  if kA < kB then kA ++ "_" ++ kB else kB ++ "_" ++ kA

/-- Station categories of the editor (types.ts). -/
inductive StationType where
  | circle
  | square
  | interchange
  | waypoint
deriving DecidableEq, Repr

/-- A station record; the fields the layout engine reads. -/
structure Station where
  id : String
  name : String
  x : ℚ
  y : ℚ
  type : StationType
deriving DecidableEq, Repr

instance : Inhabited Station := ⟨⟨"", "", 0, 0, StationType.circle⟩⟩

/-- The plane position of a station. -/
def Station.pt (s : Station) : Pt := ⟨s.x, s.y⟩

/-- A line record; optional booleans of the source are false when absent. -/
structure Line where
  id : String
  name : String
  color : String
  width : ℚ
  stationIds : List String
  closedLoop : Bool
  alternateRoute : Bool
deriving DecidableEq, Repr

instance : Inhabited Line := ⟨⟨"", "", "", 0, [], false, false⟩⟩

/-- Association-list model of the JavaScript Map backing the segment
registry; Map.set appends unknown keys in insertion order. -/
def regFind (reg : List (String × List String)) (k : String) : Option (List String) :=
  (reg.find? fun e => e.1 == k).map Prod.snd

/-- Register one line id under one key: create the binding if the key is
unknown, then push the id unless it is already present. -/
def regAdd (reg : List (String × List String)) (k lid : String) :
    List (String × List String) :=
  match regFind reg k with
  | none => reg ++ [(k, [lid])]
  | some l =>
    if lid ∈ l then reg
    else reg.map fun e => if e.1 == k then (e.1, e.2 ++ [lid]) else e

/-- Mirror of the register helper: skip segments of Euclidean length below 1
(tested on the squared length, which is equivalent), then add the line id
under the normalized segment key. -/
def register (reg : List (String × List String)) (pA pB : Pt) (lid : String) :
    List (String × List String) :=
  if (pA.x - pB.x) ^ 2 + (pA.y - pB.y) ^ 2 < 1 then reg
  else regAdd reg (segKey pA pB) lid

/-- Resolve a line id sequence to station records, silently skipping
dangling ids (map + find + filter(Boolean) in the source). -/
def lineStations (stations : List Station) (l : Line) : List Station :=
  l.stationIds.filterMap fun sid => stations.find? fun s => s.id == sid

/-- Register every consecutive sub-segment of a routed polyline. -/
def registerPolyline (reg : List (String × List String)) (pts : List Pt)
    (lid : String) : List (String × List String) :=
  (pts.zip pts.tail).foldl (fun r ab => register r ab.1 ab.2 lid) reg

/-- Route every consecutive station hop of a line and register the routed
sub-segments. -/
def registerHops (reg : List (String × List String)) (coords : List Station)
    (alt : Bool) (lid : String) : List (String × List String) :=
  (coords.zip coords.tail).foldl
    (fun r ab => registerPolyline r (getOctolinearSegment ab.1.pt ab.2.pt alt) lid)
    reg

/-- Registry contribution of one line: route every consecutive station hop
(and the wrap-around hop of a closed loop) and register the sub-segments. -/
def registerLine (reg : List (String × List String)) (stations : List Station)
    (l : Line) : List (String × List String) :=
  if l.stationIds.length < 2 then reg
  else if (lineStations stations l).length < 2 then reg
  else if l.closedLoop then
    registerPolyline
      (registerHops reg (lineStations stations l) l.alternateRoute l.id)
      (getOctolinearSegment ((lineStations stations l).getLastD default).pt
        ((lineStations stations l).headI).pt l.alternateRoute) l.id
  else registerHops reg (lineStations stations l) l.alternateRoute l.id

/-- Mirror of the segmentRegistry memo: populate from every line, then sort
every key binding by line id (JavaScript default string sort). -/
def segmentRegistry (stations : List Station) (lines : List Line) :
    List (String × List String) :=
  (lines.foldl (fun r l => registerLine r stations l) []).map
    fun e => (e.1, jsSort (fun a b : String => decide (a ≤ b)) e.2)

/-- Mirror of getLineOffset: rank of the line in the bundle sharing this
geometric segment, centered around zero and scaled by the spacing constant;
zero when the segment is unknown or the line is not listed (the source tests
indexOf against -1). -/
def getLineOffset (reg : List (String × List String)) (p1 p2 : Pt)
    (lineId : String) : ℚ :=
  match regFind reg (segKey p1 p2) with
  | none => 0
  | some linesOnSeg =>
    if lineId ∈ linesOnSeg then
      ((linesOnSeg.indexOf lineId : ℚ) - ((linesOnSeg.length : ℚ) - 1) / 2) * LINE_SPACING
    else 0

/-- Mirror of the station branch of handleDelete in App.tsx: drop the
station, drop its id from every line, then drop lines left with no
stations. -/
def handleDeleteStation (stations : List Station) (lines : List Line)
    (id : String) : List Station × List Line :=
  (stations.filter fun s => decide (s.id ≠ id),
    (lines.map fun l =>
        { l with stationIds := l.stationIds.filter fun sid => decide (sid ≠ id) }).filter
      fun l => decide (l.stationIds.length > 0))

/-! ### Real-valued tier: directions, offset intersections, paths, shapes -/

/-- A point with real coordinates, produced by the offset pipeline. -/
structure PtR where
  x : ℝ
  y : ℝ

instance : Inhabited PtR := ⟨⟨0, 0⟩⟩

/-- Dot product of two real vectors. -/
noncomputable def dotR (a b : PtR) : ℝ := a.x * b.x + a.y * b.y

open Classical in
/-- Mirror of getDir: the unit direction from p1 to p2, or the zero vector
for a segment of length below 0.001. -/
noncomputable def getDir (p1 p2 : Pt) : PtR :=
  if Real.sqrt (((p2.x - p1.x : ℚ) : ℝ) ^ 2 + ((p2.y - p1.y : ℚ) : ℝ) ^ 2) < 1 / 1000
  then ⟨0, 0⟩
  else
    ⟨((p2.x - p1.x : ℚ) : ℝ)
        / Real.sqrt (((p2.x - p1.x : ℚ) : ℝ) ^ 2 + ((p2.y - p1.y : ℚ) : ℝ) ^ 2),
      ((p2.y - p1.y : ℚ) : ℝ)
        / Real.sqrt (((p2.x - p1.x : ℚ) : ℝ) ^ 2 + ((p2.y - p1.y : ℚ) : ℝ) ^ 2)⟩

/-- Mirror of getNormal: rotate a vector by 90 degrees. -/
def getNormal (v : PtR) : PtR := ⟨-v.y, v.x⟩

open Classical in
/-- Mirror of getLineIntersection: intersection of two infinite lines given
by point and direction; falls back to the first point when the directions
are parallel within tolerance. -/
noncomputable def getLineIntersection (p1 d1 p2 d2 : PtR) : PtR :=
  let det := d1.x * d2.y - d1.y * d2.x
  if |det| < 1 / 10000 then p1
  else
    let dx := p2.x - p1.x
    let dy := p2.y - p1.y
    let t := (dx * d2.y - dy * d2.x) / det
    ⟨p1.x + t * d1.x, p1.y + t * d1.y⟩

/-- Abstract drawing commands of the generated path string: move, straight
segment, quadratic corner curve. -/
inductive PathCmd where
  | move (p : PtR)
  | segTo (p : PtR)
  | quad (c p : PtR)

open Classical in
/-- Mirror of generateSmoothPath: a move to the first point, then straight
segments with every interior vertex replaced by a quadratic curve whose
radius never exceeds half of either adjacent segment. -/
noncomputable def generateSmoothPath (points : List PtR) (cornerRadius : ℝ) :
    List PathCmd :=
  if points.length < 2 then []
  else
    PathCmd.move (points.headI) ::
      ((List.range (points.length - 2)).flatMap fun k =>
        let i := k + 1
        let p0 := points.getD (i - 1) default
        let p1 := points.getD i default
        let p2 := points.getD (i + 1) default
        let v1 : PtR := ⟨p1.x - p0.x, p1.y - p0.y⟩
        let v2 : PtR := ⟨p2.x - p1.x, p2.y - p1.y⟩
        let len1 := Real.sqrt (v1.x ^ 2 + v1.y ^ 2)
        let len2 := Real.sqrt (v2.x ^ 2 + v2.y ^ 2)
        let r := min cornerRadius (min (len1 / 2) (len2 / 2))
        if r < 1 then [PathCmd.segTo p1]
        else
          let u1 : PtR := ⟨v1.x / len1, v1.y / len1⟩
          let u2 : PtR := ⟨v2.x / len2, v2.y / len2⟩
          let qStart : PtR := ⟨p1.x - u1.x * r, p1.y - u1.y * r⟩
          let qEnd : PtR := ⟨p1.x + u2.x * r, p1.y + u2.y * r⟩
          [PathCmd.segTo qStart, PathCmd.quad p1 qEnd]) ++
      [PathCmd.segTo (points.getLastD default)]

/-- The raw centerline polyline of a line: the first station, then the tail
of every routed hop, plus the wrap hop and a repeat of the second point for
a closed loop. -/
def rawPathPoints (stations : List Station) (line : Line) : List Pt :=
  let coords := lineStations stations line
  let base := (coords.zip coords.tail).foldl
    (fun acc ab => acc ++ (getOctolinearSegment ab.1.pt ab.2.pt line.alternateRoute).drop 1)
    [coords.headI.pt]
  if line.closedLoop then
    let withWrap := base ++
      (getOctolinearSegment (coords.getLastD default).pt coords.headI.pt
        line.alternateRoute).drop 1
    withWrap ++ [withWrap.getD 1 ⟨0, 0⟩]
  else base

open Classical in
/-- The offset position of vertex i of the raw polyline: endpoints of an
open line shift along the adjacent normal, interior vertices intersect the
two shifted infinite lines, with the original vertex as degenerate
fallback. -/
noncomputable def offsetVertex (reg : List (String × List String)) (line : Line)
    (raw : List Pt) (maxIdx i : ℕ) : PtR :=
  let pCurr := raw.getD i ⟨0, 0⟩
  if i = 0 ∧ ¬line.closedLoop then
    let pNext := raw.getD (i + 1) ⟨0, 0⟩
    let dirOut := getDir pCurr pNext
    let offOut := getLineOffset reg pCurr pNext line.id
    let n := getNormal dirOut
    ⟨(pCurr.x : ℝ) + n.x * (offOut : ℝ), (pCurr.y : ℝ) + n.y * (offOut : ℝ)⟩
  else if i = maxIdx ∧ ¬line.closedLoop then
    let pPrev := raw.getD (i - 1) ⟨0, 0⟩
    let dirIn := getDir pPrev pCurr
    let offIn := getLineOffset reg pPrev pCurr line.id
    let n := getNormal dirIn
    ⟨(pCurr.x : ℝ) + n.x * (offIn : ℝ), (pCurr.y : ℝ) + n.y * (offIn : ℝ)⟩
  else
    let pPrev := if 0 < i then raw.getD (i - 1) ⟨0, 0⟩ else raw.getD maxIdx ⟨0, 0⟩
    let pNext := if i < maxIdx then raw.getD (i + 1) ⟨0, 0⟩ else raw.getD 1 ⟨0, 0⟩
    let dIn := getDir pPrev pCurr
    let dOut := getDir pCurr pNext
    if Real.sqrt (dIn.x ^ 2 + dIn.y ^ 2) < 1 / 1000 ∨
        Real.sqrt (dOut.x ^ 2 + dOut.y ^ 2) < 1 / 1000 then
      ⟨(pCurr.x : ℝ), (pCurr.y : ℝ)⟩
    else
      let offIn := getLineOffset reg pPrev pCurr line.id
      let offOut := getLineOffset reg pCurr pNext line.id
      let nIn := getNormal dIn
      let nOut := getNormal dOut
      let pInShift : PtR := ⟨(pCurr.x : ℝ) + nIn.x * (offIn : ℝ), (pCurr.y : ℝ) + nIn.y * (offIn : ℝ)⟩
      let pOutShift : PtR := ⟨(pCurr.x : ℝ) + nOut.x * (offOut : ℝ), (pCurr.y : ℝ) + nOut.y * (offOut : ℝ)⟩
      getLineIntersection pInShift dIn pOutShift dOut

/-- Mirror of getLinePath: empty for a line with fewer than two resolvable
stations, otherwise the smoothed offset polyline of the routed hops. -/
noncomputable def getLinePath (reg : List (String × List String))
    (stations : List Station) (line : Line) : List PathCmd :=
  let coords := lineStations stations line
  if coords.length < 2 then []
  else
    let raw := rawPathPoints stations line
    let maxIdx := if line.closedLoop then raw.length - 2 else raw.length - 1
    let offPts := (List.range (maxIdx + 1)).map (offsetVertex reg line raw maxIdx)
    let closedPts :=
      if line.closedLoop ∧ 0 < offPts.length then offPts ++ [offPts.headI] else offPts
    generateSmoothPath closedPts 16

/-- The routed point immediately before the station on this line (the
second-to-last point of the incoming hop), if any: a previous station in the
sequence, or the wrap-around end of a closed loop. -/
def linePrevPt (stations : List Station) (st : Station) (l : Line) : Option Pt :=
  (if l.stationIds.indexOf st.id ≠ 0 then
      (l.stationIds.get? (l.stationIds.indexOf st.id - 1)).bind fun sid =>
        stations.find? fun s => s.id == sid
    else if l.closedLoop then
      (l.stationIds.get? (l.stationIds.length - 1)).bind fun sid =>
        stations.find? fun s => s.id == sid
    else none).map fun sp =>
    (getOctolinearSegment sp.pt st.pt l.alternateRoute).getD
      ((getOctolinearSegment sp.pt st.pt l.alternateRoute).length - 2) ⟨0, 0⟩

/-- The routed point immediately after the station on this line (the second
point of the outgoing hop), if any. -/
def lineNextPt (stations : List Station) (st : Station) (l : Line) : Option Pt :=
  (if l.stationIds.indexOf st.id ≠ l.stationIds.length - 1 then
      (l.stationIds.get? (l.stationIds.indexOf st.id + 1)).bind fun sid =>
        stations.find? fun s => s.id == sid
    else if l.closedLoop then
      (l.stationIds.get? 0).bind fun sid =>
        stations.find? fun s => s.id == sid
    else none).map fun sn =>
    (getOctolinearSegment st.pt sn.pt l.alternateRoute).getD 1 ⟨0, 0⟩

/-- Outgoing unit direction of a line at a station (zero when there is no
next routed point). -/
noncomputable def lineOutDir (stations : List Station) (st : Station) (l : Line) : PtR :=
  match lineNextPt stations st l with
  | some pn => getDir st.pt pn
  | none => ⟨0, 0⟩

open Classical in
/-- Straight-through check for one line at a station, mirroring one
iteration of the classifier loop: both routed neighbors must exist and the
incoming and outgoing unit directions must agree (dot at least 0.99);
returns the outgoing direction on success. -/
noncomputable def lineThrough (stations : List Station) (st : Station) (l : Line) :
    Option PtR :=
  match linePrevPt stations st l, lineNextPt stations st l with
  | some pp, some pn =>
    if dotR (getDir pp st.pt) (getDir st.pt pn) < 99 / 100 then none
    else some (getDir st.pt pn)
  | _, _ => none

open Classical in
/-- The classifier loop over the touching lines, carrying the bundle
direction state; none models validPill = false (the source breaks out of
the loop). -/
noncomputable def scanBundle (stations : List Station) (st : Station) :
    List Line → Option PtR → Option PtR
  | [], bd => bd
  | l :: ls, bd =>
    match lineThrough stations st l with
    | none => none
    | some dOut =>
      match bd with
      | none => scanBundle stations st ls (some dOut)
      | some b =>
        if dotR b dOut < 99 / 100 then none else scanBundle stations st ls (some b)

/-- JavaScript Math.atan2 in radians, modelled by the complex argument. -/
noncomputable def jsAtan2 (y x : ℝ) : ℝ := Complex.arg ⟨x, y⟩

/-- Station rendering classification. -/
inductive ShapeKind where
  | standard
  | pill
deriving DecidableEq, Repr

/-- The descriptor returned by getStationShape. -/
structure ShapeDesc where
  kind : ShapeKind
  count : ℕ
  angle : ℝ

/-- Mirror of getStationShape: a station with at least two touching lines,
all passing straight through in one common direction, renders as a pill
rotated to the normal of that direction; anything else is standard. -/
noncomputable def getStationShape (stations : List Station) (lines : List Line)
    (st : Station) : ShapeDesc :=
  if (lines.filter fun l => decide (st.id ∈ l.stationIds)).length < 2 then
    ⟨ShapeKind.standard, 1, 0⟩
  else
    match scanBundle stations st
        (lines.filter fun l => decide (st.id ∈ l.stationIds)) none with
    | some bd =>
      ⟨ShapeKind.pill, (lines.filter fun l => decide (st.id ∈ l.stationIds)).length,
        jsAtan2 (getNormal bd).y (getNormal bd).x * 180 / Real.pi⟩
    | none =>
      ⟨ShapeKind.standard, (lines.filter fun l => decide (st.id ∈ l.stationIds)).length, 0⟩


/-- Keys pairwise distinct and every binding duplicate-free: the invariant
of the registry under construction. -/
def RegNodup (reg : List (String × List String)) : Prop :=
  (reg.map Prod.fst).Nodup ∧ ∀ e ∈ reg, e.2.Nodup

/-- A concrete three-station configuration on one horizontal axis, exercising
the shape classifier. -/
def stS : Station := ⟨"s", "S", 0, 0, StationType.circle⟩

def stA : Station := ⟨"a", "A", 1, 0, StationType.circle⟩

def stB : Station := ⟨"b", "B", -1, 0, StationType.circle⟩

/-- An open line running B, S, A. -/
def lineL1 : Line := ⟨"l1", "L1", "#000", 6, ["b", "s", "a"], false, false⟩

/-- A closed loop whose id sequence repeats the station s at a later
position. -/
def lineL2loop : Line := ⟨"l2", "L2", "#000", 6, ["s", "a", "s"], true, false⟩

/-- The same closed loop with the later repetition replaced by b. -/
def lineL2open : Line := ⟨"l2", "L2", "#000", 6, ["s", "a", "b"], true, false⟩

/-- The eight candidates written out with explicit lengths; equal to
octoCandidates for every non-aligned point pair (octoCandidates_eq). -/
def candList (p1 p2 : Pt) : List Cand :=
  [ ⟨[p1, ⟨p2.x + (p1.y - p2.y), p1.y⟩, p2],
      ⟨qabs (p2.x - p1.x - (p2.y - p1.y)), qabs (p2.y - p1.y)⟩, true⟩,
    ⟨[p1, ⟨p2.x - (p1.y - p2.y), p1.y⟩, p2],
      ⟨qabs (p2.x - p1.x + (p2.y - p1.y)), qabs (p2.y - p1.y)⟩, true⟩,
    ⟨[p1, ⟨p1.x, p2.y + (p1.x - p2.x)⟩, p2],
      ⟨qabs (p2.x - p1.x - (p2.y - p1.y)), qabs (p2.x - p1.x)⟩, false⟩,
    ⟨[p1, ⟨p1.x, p2.y - (p1.x - p2.x)⟩, p2],
      ⟨qabs (p2.x - p1.x + (p2.y - p1.y)), qabs (p2.x - p1.x)⟩, false⟩,
    ⟨[p1, ⟨p1.x + (p2.y - p1.y), p2.y⟩, p2],
      ⟨qabs (p2.x - p1.x - (p2.y - p1.y)), qabs (p2.y - p1.y)⟩, false⟩,
    ⟨[p1, ⟨p1.x - (p2.y - p1.y), p2.y⟩, p2],
      ⟨qabs (p2.x - p1.x + (p2.y - p1.y)), qabs (p2.y - p1.y)⟩, false⟩,
    ⟨[p1, ⟨p2.x, p1.y + (p2.x - p1.x)⟩, p2],
      ⟨qabs (p2.x - p1.x - (p2.y - p1.y)), qabs (p2.x - p1.x)⟩, true⟩,
    ⟨[p1, ⟨p2.x, p1.y - (p2.x - p1.x)⟩, p2],
      ⟨qabs (p2.x - p1.x + (p2.y - p1.y)), qabs (p2.x - p1.x)⟩, true⟩ ]


/-! ### Bridge lemmas: the rational decision procedures against real semantics -/

theorem qabs_eq (q : ℚ) : qabs q = |q| := by
  unfold qabs
  rcases lt_trichotomy q 0 with h | h | h
  · rw [if_pos h, abs_of_neg h]
  · simp [h]
  · rw [if_neg (not_lt.mpr h.le), abs_of_pos h]

theorem RootTwo.add_def (x y : RootTwo) : x + y = ⟨x.q + y.q, x.r + y.r⟩ := rfl

theorem RootTwo.sub_def (x y : RootTwo) : x - y = ⟨x.q - y.q, x.r - y.r⟩ := rfl

theorem sqrt_two_sq : Real.sqrt 2 ^ 2 = 2 := Real.sq_sqrt (by norm_num)

theorem sqrt_two_lt : Real.sqrt 2 < 3 / 2 := by
  nlinarith [sqrt_two_sq, Real.sqrt_nonneg 2]

theorem sqrt_two_gt : 7 / 5 < Real.sqrt 2 := by
  nlinarith [sqrt_two_sq, Real.sqrt_nonneg 2]

theorem rtNeg_iff (a b : ℚ) :
    rtNeg a b = true ↔ (a : ℝ) + (b : ℝ) * Real.sqrt 2 < 0 := by
  have hs := sqrt_two_sq
  have hs0 := Real.sqrt_nonneg 2
  have hsp : (0 : ℝ) < Real.sqrt 2 := by nlinarith
  unfold rtNeg
  rcases lt_trichotomy b 0 with hb | hb | hb
  · rw [if_neg hb.ne, if_neg (not_lt.mpr hb.le)]
    simp only [decide_eq_true_eq]
    have hbR : (b : ℝ) < 0 := by exact_mod_cast hb
    constructor
    · rintro (ha | ha)
      · have haR : (a : ℝ) < 0 := by exact_mod_cast ha
        nlinarith
      · have haR : (a : ℝ) ^ 2 < 2 * (b : ℝ) ^ 2 := by exact_mod_cast ha
        by_contra hcon
        push_neg at hcon
        have h1 : (0 : ℝ) < -(b : ℝ) * Real.sqrt 2 := by nlinarith
        have h2 : -(b : ℝ) * Real.sqrt 2 ≤ (a : ℝ) := by linarith
        have h3 : (-(b : ℝ) * Real.sqrt 2) * (-(b : ℝ) * Real.sqrt 2)
            = 2 * (b : ℝ) ^ 2 := by linear_combination (b : ℝ) ^ 2 * hs
        nlinarith [mul_self_le_mul_self h1.le h2]
    · intro h
      by_cases ha : a < 0
      · exact Or.inl ha
      · right
        have haR : (0 : ℝ) ≤ (a : ℝ) := by exact_mod_cast not_lt.mp ha
        have : (a : ℝ) ^ 2 < 2 * (b : ℝ) ^ 2 := by nlinarith
        exact_mod_cast this
  · subst hb
    rw [if_pos rfl]
    simp only [decide_eq_true_eq, Rat.cast_zero, zero_mul, add_zero]
    exact Rat.cast_lt_zero.symm
  · rw [if_neg hb.ne.symm, if_pos hb]
    simp only [decide_eq_true_eq]
    have hbR : (0 : ℝ) < (b : ℝ) := by exact_mod_cast hb
    constructor
    · rintro ⟨ha, hab⟩
      have haR : (a : ℝ) < 0 := by exact_mod_cast ha
      have habR : 2 * (b : ℝ) ^ 2 < (a : ℝ) ^ 2 := by exact_mod_cast hab
      nlinarith [sq_nonneg ((a : ℝ) + (b : ℝ) * Real.sqrt 2)]
    · intro h
      have haR : (a : ℝ) < 0 := by nlinarith
      have ht : (0 : ℝ) < (b : ℝ) * Real.sqrt 2 := by nlinarith
      have h2lt : (b : ℝ) * Real.sqrt 2 < -(a : ℝ) := by linarith
      have h3 : ((b : ℝ) * Real.sqrt 2) * ((b : ℝ) * Real.sqrt 2)
          = 2 * (b : ℝ) ^ 2 := by linear_combination (b : ℝ) ^ 2 * hs
      have habR : 2 * (b : ℝ) ^ 2 < (a : ℝ) ^ 2 := by
        nlinarith [mul_self_lt_mul_self ht.le h2lt]
      exact ⟨by exact_mod_cast haR, by exact_mod_cast habR⟩

theorem RootTwo.ltb_iff (x y : RootTwo) :
    RootTwo.ltb x y = true ↔ x.toReal < y.toReal := by
  unfold RootTwo.ltb RootTwo.toReal
  rw [rtNeg_iff]
  push_cast
  constructor <;> intro h <;> nlinarith [Real.sqrt_nonneg 2]

theorem RootTwo.leb_iff (x y : RootTwo) :
    RootTwo.leb x y = true ↔ x.toReal ≤ y.toReal := by
  unfold RootTwo.leb
  rw [Bool.not_eq_true']
  constructor
  · intro h
    by_contra hc
    rw [not_le] at hc
    rw [(RootTwo.ltb_iff y x).mpr hc] at h
    exact absurd h (by simp)
  · intro h
    cases hh : RootTwo.ltb y x
    · rfl
    · exact absurd ((RootTwo.ltb_iff y x).mp hh) (not_lt.mpr h)

theorem RootTwo.toReal_inj {x y : RootTwo} (h : x.toReal = y.toReal) : x = y := by
  by_cases hr : x.r = y.r
  · unfold RootTwo.toReal at h
    rw [hr] at h
    have hq : (x.q : ℝ) = y.q := by linarith
    have hq2 : x.q = y.q := by exact_mod_cast hq
    cases x; cases y
    simp_all
  · exfalso
    have hrr : (y.r : ℝ) - (x.r : ℝ) ≠ 0 := by
      intro hc
      have h1 : (y.r : ℝ) = (x.r : ℝ) := by linarith
      have h2 : y.r = x.r := by exact_mod_cast h1
      exact hr h2.symm
    have hval : Real.sqrt 2 = (((x.q - y.q) / (y.r - x.r) : ℚ) : ℝ) := by
      unfold RootTwo.toReal at h
      push_cast
      rw [eq_div_iff (by exact hrr)]
      nlinarith [h]
    exact irrational_sqrt_two ⟨(x.q - y.q) / (y.r - x.r), hval.symm⟩

theorem absLt1_iff (x : RootTwo) : absLt1 x = true ↔ |x.toReal| < 1 := by
  unfold absLt1
  rw [Bool.and_eq_true, rtNeg_iff, rtNeg_iff, abs_lt]
  unfold RootTwo.toReal
  push_cast
  constructor
  · rintro ⟨h1, h2⟩
    constructor <;> nlinarith
  · rintro ⟨h1, h2⟩
    constructor <;> nlinarith

theorem ltDirect_iff (len : RootTwo) (s : ℚ) (hq : 0 ≤ len.q) (hr : 0 ≤ len.r)
    (hs : 0 ≤ s) :
    ltDirect len s = true ↔ len.toReal < 3 / 2 * Real.sqrt (s : ℝ) := by
  have h2 := sqrt_two_sq
  have h20 := Real.sqrt_nonneg 2
  have hsq : Real.sqrt (s : ℝ) ^ 2 = (s : ℝ) := Real.sq_sqrt (by exact_mod_cast hs)
  have hs0 : (0 : ℝ) ≤ Real.sqrt (s : ℝ) := Real.sqrt_nonneg _
  have hqR : (0 : ℝ) ≤ (len.q : ℝ) := by exact_mod_cast hq
  have hrR : (0 : ℝ) ≤ (len.r : ℝ) := by exact_mod_cast hr
  unfold ltDirect
  rw [rtNeg_iff]
  unfold RootTwo.toReal
  push_cast
  constructor
  · intro h
    have hpow : ((len.q : ℝ) + (len.r : ℝ) * Real.sqrt 2) ^ 2
        < (3 / 2 * Real.sqrt (s : ℝ)) ^ 2 := by nlinarith
    exact lt_of_pow_lt_pow_left₀ 2 (by positivity) hpow
  · intro h
    have hT : (0 : ℝ) ≤ (len.q : ℝ) + (len.r : ℝ) * Real.sqrt 2 := by positivity
    have hpow := pow_lt_pow_left₀ h hT two_ne_zero
    nlinarith


/-! ### Elementary facts about qabs, hypotRT, the sort model -/

theorem qabs_neg (q : ℚ) : qabs (-q) = qabs q := by
  rw [qabs_eq, qabs_eq, abs_neg]

theorem qabs_nonneg (q : ℚ) : 0 ≤ qabs q := by
  rw [qabs_eq]; exact abs_nonneg q

theorem qabs_sq (q : ℚ) : qabs q ^ 2 = q ^ 2 := by
  rw [qabs_eq, sq_abs]

theorem qabs_eq_zero {q : ℚ} : qabs q = 0 ↔ q = 0 := by
  rw [qabs_eq]; exact abs_eq_zero

theorem qabs_sub_comm (a b : ℚ) : qabs (a - b) = qabs (b - a) := by
  rw [qabs_eq, qabs_eq, abs_sub_comm]

theorem hypotRT_x (a : ℚ) : hypotRT a 0 = ⟨qabs a, 0⟩ := by
  simp [hypotRT]

theorem hypotRT_y (b : ℚ) (hb : b ≠ 0) : hypotRT 0 b = ⟨qabs b, 0⟩ := by
  simp [hypotRT, hb]

theorem hypotRT_diag (a b : ℚ) (ha : a ≠ 0) (hb : b ≠ 0) (h : qabs a = qabs b) :
    hypotRT a b = ⟨0, qabs a⟩ := by
  simp [hypotRT, ha, hb, h]

theorem jsSort_perm (le : α → α → Bool) (l : List α) : (jsSort le l).Perm l :=
  List.perm_insertionSort _ l

theorem jsSort_sorted (le : α → α → Bool) (l : List α)
    (htrans : ∀ a b c, le a b = true → le b c = true → le a c = true)
    (htotal : ∀ a b, le a b = true ∨ le b a = true) :
    (jsSort le l).Pairwise fun a b => le a b = true := by
  haveI : IsTrans α fun a b => le a b = true := ⟨htrans⟩
  haveI : IsTotal α fun a b => le a b = true := ⟨htotal⟩
  exact List.sorted_insertionSort _ l

theorem headI_mem {α} [Inhabited α] {l : List α} (h : l ≠ []) : l.headI ∈ l := by
  cases l with
  | nil => exact absurd rfl h
  | cons a t => exact List.mem_cons_self a t

theorem perm_pair {α} [DecidableEq α] {l : List α} {x y : α} (hxy : x ≠ y)
    (h : l.Perm [x, y]) : l = [x, y] ∨ l = [y, x] := by
  rcases l with _ | ⟨a, _ | ⟨b, _ | ⟨c, t⟩⟩⟩
  · exact absurd h.length_eq (by simp)
  · exact absurd h.length_eq (by simp)
  · have ha : a ∈ [x, y] := h.mem_iff.mp (by simp)
    have hb : b ∈ [x, y] := h.mem_iff.mp (by simp)
    simp only [List.mem_cons, List.mem_singleton, List.not_mem_nil, or_false] at ha hb
    have hcnt := h.count_eq x
    rcases ha with rfl | rfl <;> rcases hb with rfl | rfl
    · simp [List.count_cons, hxy] at hcnt
    · exact Or.inl rfl
    · exact Or.inr rfl
    · simp [List.count_cons, hxy, hxy.symm] at hcnt
  · exact absurd h.length_eq (by simp)

theorem lenLe_trans (a b c : Cand) (h1 : lenLe a b = true) (h2 : lenLe b c = true) :
    lenLe a c = true := by
  unfold lenLe at *
  rw [RootTwo.leb_iff] at *
  linarith

theorem lenLe_total (a b : Cand) : lenLe a b = true ∨ lenLe b a = true := by
  unfold lenLe
  rw [RootTwo.leb_iff, RootTwo.leb_iff]
  exact le_total _ _

theorem famLe_trans (alt : Bool) (a b c : Cand) (h1 : famLe alt a b = true)
    (h2 : famLe alt b c = true) : famLe alt a c = true := by
  unfold famLe at *
  cases alt <;> cases ha : a.horizontalFirst <;> cases hb : b.horizontalFirst <;>
    cases hc : c.horizontalFirst <;> simp_all

theorem famLe_total (alt : Bool) (a b : Cand) :
    famLe alt a b = true ∨ famLe alt b a = true := by
  unfold famLe
  cases alt <;> cases ha : a.horizontalFirst <;> cases hb : b.horizontalFirst <;> simp_all

theorem octoCandidates_eq (p1 p2 : Pt) (hdx : p2.x - p1.x ≠ 0)
    (hdy : p2.y - p1.y ≠ 0) (hd1 : p2.y - p1.y - (p2.x - p1.x) ≠ 0)
    (hd2 : p2.y - p1.y + (p2.x - p1.x) ≠ 0) :
    octoCandidates p1 p2 = candList p1 p2 := by
  have e1 : p2.x + (p1.y - p2.y) - p1.x = p2.x - p1.x - (p2.y - p1.y) := by ring
  have e2 : p2.x - (p2.x + (p1.y - p2.y)) = p2.y - p1.y := by ring
  have e3 : p2.x - (p1.y - p2.y) - p1.x = p2.x - p1.x + (p2.y - p1.y) := by ring
  have e4 : p2.x - (p2.x - (p1.y - p2.y)) = -(p2.y - p1.y) := by ring
  have e5 : p2.y + (p1.x - p2.x) - p1.y = p2.y - p1.y - (p2.x - p1.x) := by ring
  have e6 : p2.y - (p2.y + (p1.x - p2.x)) = p2.x - p1.x := by ring
  have e7 : p2.y - (p1.x - p2.x) - p1.y = p2.y - p1.y + (p2.x - p1.x) := by ring
  have e8 : p2.y - (p2.y - (p1.x - p2.x)) = -(p2.x - p1.x) := by ring
  have e9 : p1.x + (p2.y - p1.y) - p1.x = p2.y - p1.y := by ring
  have e10 : p2.x - (p1.x + (p2.y - p1.y)) = p2.x - p1.x - (p2.y - p1.y) := by ring
  have e11 : p1.x - (p2.y - p1.y) - p1.x = -(p2.y - p1.y) := by ring
  have e12 : p2.x - (p1.x - (p2.y - p1.y)) = p2.x - p1.x + (p2.y - p1.y) := by ring
  have e13 : p1.y + (p2.x - p1.x) - p1.y = p2.x - p1.x := by ring
  have e14 : p2.y - (p1.y + (p2.x - p1.x)) = p2.y - p1.y - (p2.x - p1.x) := by ring
  have e15 : p1.y - (p2.x - p1.x) - p1.y = -(p2.x - p1.x) := by ring
  have e16 : p2.y - (p1.y - (p2.x - p1.x)) = p2.y - p1.y + (p2.x - p1.x) := by ring
  have hmx : -(p2.x - p1.x) ≠ 0 := neg_ne_zero.mpr hdx
  have hmy : -(p2.y - p1.y) ≠ 0 := neg_ne_zero.mpr hdy
  have hd2b : p2.x - p1.x + (p2.y - p1.y) ≠ 0 := by
    intro hc
    exact hd2 (by linarith)
  unfold octoCandidates candList tryPath
  rw [sub_self, sub_self, sub_self, sub_self, e1, e2, e3, e4, e5, e6, e7, e8, e9,
    e10, e11, e12, e13, e14, e15, e16]
  simp only [hypotRT_x, hypotRT_y _ hd1, hypotRT_y _ hd2, hypotRT_y _ hd2b,
    hypotRT_diag _ _ hdy hdy rfl, hypotRT_diag _ _ hmy hdy (qabs_neg _),
    hypotRT_diag _ _ hdx hdx rfl, hypotRT_diag _ _ hdx hmx (qabs_neg _).symm,
    RootTwo.add_def, qabs_neg, add_zero, zero_add,
    qabs_sub_comm (p2.y - p1.y) (p2.x - p1.x),
    show p2.y - p1.y + (p2.x - p1.x) = p2.x - p1.x + (p2.y - p1.y) from by ring]


theorem RootTwo.toReal_mk (a b : ℚ) :
    (⟨a, b⟩ : RootTwo).toReal = (a : ℝ) + (b : ℝ) * Real.sqrt 2 := rfl

theorem Pt.ne_of_x {a b : Pt} (h : a.x ≠ b.x) : a ≠ b := fun hc => h (by rw [hc])

theorem Pt.ne_of_y {a b : Pt} (h : a.y ≠ b.y) : a ≠ b := fun hc => h (by rw [hc])

theorem qabs_add_sub_cases (dx dy : ℚ) (hdx : dx ≠ 0) (hdy : dy ≠ 0) :
    (qabs (dx - dy) = qabs dx + qabs dy ∧ qabs (dx + dy) = qabs (qabs dx - qabs dy)) ∨
    (qabs (dx - dy) = qabs (qabs dx - qabs dy) ∧ qabs (dx + dy) = qabs dx + qabs dy) := by
  simp only [qabs_eq]
  rcases lt_or_gt_of_ne hdx with h1 | h1 <;> rcases lt_or_gt_of_ne hdy with h2 | h2
  · right
    constructor
    · rw [abs_of_neg h1, abs_of_neg h2, show -dx - -dy = -(dx - dy) from by ring, abs_neg]
    · rw [abs_of_neg h1, abs_of_neg h2, abs_of_neg (show dx + dy < 0 from by linarith)]
      ring
  · left
    constructor
    · rw [abs_of_neg h1, abs_of_pos h2, abs_of_neg (show dx - dy < 0 from by linarith)]
      ring
    · rw [abs_of_neg h1, abs_of_pos h2, show -dx - dy = -(dx + dy) from by ring, abs_neg]
  · left
    constructor
    · rw [abs_of_pos h1, abs_of_neg h2, abs_of_pos (show 0 < dx - dy from by linarith)]
      ring
    · rw [abs_of_pos h1, abs_of_neg h2, show dx - -dy = dx + dy from by ring]
  · right
    constructor
    · rw [abs_of_pos h1, abs_of_pos h2]
    · rw [abs_of_pos h1, abs_of_pos h2, abs_of_pos (show 0 < dx + dy from by linarith)]

theorem ltDirect_of (Mq mq s : ℚ) (hm : 1 ≤ mq) (hMm : mq ≤ Mq)
    (hs : Mq ^ 2 + mq ^ 2 = s) : ltDirect ⟨Mq - mq, mq⟩ s = true := by
  have h0s : (0 : ℚ) ≤ s := by nlinarith
  rw [ltDirect_iff _ _ (by simp only []; linarith) (by simp only []; linarith) h0s]
  rw [RootTwo.toReal_mk]
  have hS2 : Real.sqrt (s : ℝ) ^ 2 = (s : ℝ) := Real.sq_sqrt (by exact_mod_cast h0s)
  have hS0 : (0 : ℝ) ≤ Real.sqrt (s : ℝ) := Real.sqrt_nonneg _
  have hmR : (1 : ℝ) ≤ (mq : ℝ) := by exact_mod_cast hm
  have hMmR : (mq : ℝ) ≤ (Mq : ℝ) := by exact_mod_cast hMm
  have hsR : (Mq : ℝ) ^ 2 + (mq : ℝ) ^ 2 = (s : ℝ) := by exact_mod_cast hs
  have hMS : (Mq : ℝ) ≤ Real.sqrt (s : ℝ) := by
    by_contra hc
    push_neg at hc
    have hmul := mul_self_lt_mul_self hS0 hc
    nlinarith
  have hms : (mq : ℝ) * Real.sqrt 2 < (mq : ℝ) * (3 / 2) :=
    mul_lt_mul_of_pos_left sqrt_two_lt (by linarith)
  push_cast
  linarith

theorem absLt1_zero : absLt1 ⟨0, 0⟩ = true := by
  rw [absLt1_iff, RootTwo.toReal_mk]
  norm_num

theorem absLt1_false_of (x : RootTwo) (h : 1 ≤ |x.toReal|) : absLt1 x = false := by
  cases hb : absLt1 x
  · rfl
  · exact absurd ((absLt1_iff x).mp hb) (not_lt.mpr h)

theorem octoShortest_eq (p1 p2 : Pt) (A : RootTwo) (w : Cand)
    (hwmem : w ∈ octoValid p1 p2) (hwlen : w.len = A)
    (hmin : ∀ c ∈ octoValid p1 p2, A.toReal ≤ c.len.toReal) :
    octoShortest p1 p2 = A := by
  have hperm : (octoSorted p1 p2).Perm (octoValid p1 p2) := jsSort_perm _ _
  have hwmem2 : w ∈ octoSorted p1 p2 := hperm.mem_iff.mpr hwmem
  have hne : octoSorted p1 p2 ≠ [] := by
    intro hc
    rw [hc] at hwmem2
    exact absurd hwmem2 (List.not_mem_nil w)
  have hsorted : (octoSorted p1 p2).Pairwise fun a b => lenLe a b = true :=
    jsSort_sorted lenLe _ lenLe_trans lenLe_total
  have hheadmem : (octoSorted p1 p2).headI ∈ octoValid p1 p2 :=
    hperm.mem_iff.mp (headI_mem hne)
  have hge : A.toReal ≤ (octoSorted p1 p2).headI.len.toReal := hmin _ hheadmem
  have hle : (octoSorted p1 p2).headI.len.toReal ≤ A.toReal := by
    rcases hl : octoSorted p1 p2 with _ | ⟨hd, tl⟩
    · exact absurd hl hne
    · rw [hl] at hwmem2 hsorted
      rcases List.mem_cons.mp hwmem2 with rfl | hwtl
      · simp [List.headI, hwlen]
      · have := (List.pairwise_cons.mp hsorted).1 w hwtl
        unfold lenLe at this
        rw [RootTwo.leb_iff] at this
        simpa [List.headI, hwlen] using this
  exact RootTwo.toReal_inj (le_antisymm hle hge)


theorem famSort_head (alt : Bool) (l : List Cand) (x y : Cand)
    (hx : x.horizontalFirst = true) (hy : y.horizontalFirst = false)
    (hperm : l.Perm [x, y]) :
    (jsSort (famLe alt) l).headI = if alt then y else x := by
  have hxy : x ≠ y := fun hc => by
    rw [hc, hy] at hx
    exact Bool.false_ne_true hx
  have hperm2 : (jsSort (famLe alt) l).Perm [x, y] := (jsSort_perm _ _).trans hperm
  have hsorted : (jsSort (famLe alt) l).Pairwise fun a b => famLe alt a b = true :=
    jsSort_sorted _ _ (famLe_trans alt) (famLe_total alt)
  rcases perm_pair hxy hperm2 with he | he
  · rw [he]
    cases alt
    · simp [List.headI]
    · rw [he] at hsorted
      have hrel := (List.pairwise_cons.mp hsorted).1 y (by simp)
      unfold famLe at hrel
      rw [hx, hy] at hrel
      simp at hrel
  · rw [he]
    cases alt
    · rw [he] at hsorted
      have hrel := (List.pairwise_cons.mp hsorted).1 x (by simp)
      unfold famLe at hrel
      rw [hx, hy] at hrel
      simp at hrel
    · simp [List.headI]

set_option maxHeartbeats 1600000 in
theorem octo_core (p1 p2 : Pt)
    (h1 : 1 ≤ qabs (p2.x - p1.x)) (h2 : 1 ≤ qabs (p2.y - p1.y))
    (h3 : 1 ≤ qabs (qabs (p2.x - p1.x) - qabs (p2.y - p1.y))) :
    ∃ ch cv : Cand,
      ch ∈ octoCandidates p1 p2 ∧ cv ∈ octoCandidates p1 p2 ∧
      ch.horizontalFirst = true ∧ cv.horizontalFirst = false ∧ ch.len = cv.len ∧
      getOctolinearSegment p1 p2 false = ch.points ∧
      getOctolinearSegment p1 p2 true = cv.points ∧
      ∃ mh mv : Pt, ch.points = [p1, mh, p2] ∧ cv.points = [p1, mv, p2] ∧ mh ≠ mv ∧
        segLenR p1 mh + segLenR mh p2 = segLenR p1 mv + segLenR mv p2 := by
  have hdx : p2.x - p1.x ≠ 0 := by
    intro hc
    rw [hc] at h1
    norm_num [qabs] at h1
  have hdy : p2.y - p1.y ≠ 0 := by
    intro hc
    rw [hc] at h2
    norm_num [qabs] at h2
  have huv : qabs (p2.x - p1.x) ≠ qabs (p2.y - p1.y) := by
    intro hc
    rw [hc, sub_self] at h3
    norm_num [qabs] at h3
  have hd1 : p2.y - p1.y - (p2.x - p1.x) ≠ 0 := by
    intro hc
    exact huv (by rw [show p2.x - p1.x = p2.y - p1.y from by linarith])
  have hd2 : p2.y - p1.y + (p2.x - p1.x) ≠ 0 := by
    intro hc
    apply huv
    rw [show p2.y - p1.y = -(p2.x - p1.x) from by linarith, qabs_neg]
  have hnal : ¬(qabs (p2.x - p1.x) < 1 ∨ qabs (p2.y - p1.y) < 1 ∨
      qabs (qabs (p2.x - p1.x) - qabs (p2.y - p1.y)) < 1) := by
    simp only [not_or, not_lt]
    exact ⟨h1, h2, h3⟩
  have hcand : octoCandidates p1 p2 = candList p1 p2 :=
    octoCandidates_eq p1 p2 hdx hdy hd1 hd2
  have hvalid : octoValid p1 p2 = (candList p1 p2).filter fun c =>
      ltDirect c.len ((p2.x - p1.x) ^ 2 + (p2.y - p1.y) ^ 2) := by
    unfold octoValid
    rw [hcand]
  rcases qabs_add_sub_cases (p2.x - p1.x) (p2.y - p1.y) hdx hdy with ⟨hA1, hA2⟩ | ⟨hA1, hA2⟩ <;>
    rcases lt_or_gt_of_ne huv with hlt | hlt
  case inl.intro.inl =>
    have hsmall : qabs (p2.x - p1.x + (p2.y - p1.y)) = qabs (p2.y - p1.y) - qabs (p2.x - p1.x) := by
      rw [hA2, qabs_eq, abs_of_neg (show qabs (p2.x - p1.x) - qabs (p2.y - p1.y) < 0 from by linarith)]
      ring
    have hgapq : 1 ≤ qabs (p2.y - p1.y) - qabs (p2.x - p1.x) := by
      rw [qabs_eq, abs_of_neg (show qabs (p2.x - p1.x) - qabs (p2.y - p1.y) < 0 from by linarith)] at h3
      linarith
    have hltR : ((qabs (p2.x - p1.x) : ℚ) : ℝ) ≤ ((qabs (p2.y - p1.y) : ℚ) : ℝ) := by exact_mod_cast hlt.le
    have hbig : qabs (p2.x - p1.x - (p2.y - p1.y)) = qabs (p2.x - p1.x) + qabs (p2.y - p1.y) := hA1
    have hgapR : (1 : ℝ) ≤ ((qabs (p2.y - p1.y) : ℚ) : ℝ) - ((qabs (p2.x - p1.x) : ℚ) : ℝ) := by
      exact_mod_cast hgapq
    have hmqR : (1 : ℝ) ≤ ((qabs (p2.x - p1.x) : ℚ) : ℝ) := by exact_mod_cast h1
    have hVw : ltDirect ((⟨qabs (p2.x - p1.x + (p2.y - p1.y)), qabs (p2.x - p1.x)⟩ : RootTwo)) ((p2.x - p1.x) ^ 2 + (p2.y - p1.y) ^ 2) = true := by
      rw [show ((⟨qabs (p2.x - p1.x + (p2.y - p1.y)), qabs (p2.x - p1.x)⟩ : RootTwo)) = ⟨qabs (p2.y - p1.y) - qabs (p2.x - p1.x), qabs (p2.x - p1.x)⟩ from by rw [hsmall]]
      exact ltDirect_of _ _ _ h1 hlt.le (by rw [qabs_sq, qabs_sq]; try ring)
    have hPwin : absLt1 ((⟨qabs (p2.x - p1.x + (p2.y - p1.y)), qabs (p2.x - p1.x)⟩ : RootTwo) - (⟨qabs (p2.x - p1.x + (p2.y - p1.y)), qabs (p2.x - p1.x)⟩ : RootTwo)) = true := by
      rw [RootTwo.sub_def]
      simp only [sub_self]
      exact absLt1_zero
    have hPa : absLt1 ((⟨qabs (p2.x - p1.x - (p2.y - p1.y)), qabs (p2.x - p1.x)⟩ : RootTwo) - (⟨qabs (p2.x - p1.x + (p2.y - p1.y)), qabs (p2.x - p1.x)⟩ : RootTwo)) = false := by
      rw [RootTwo.sub_def]
      apply absLt1_false_of
      refine le_trans ?_ (le_abs_self _)
      rw [RootTwo.toReal_mk]
      simp only [hsmall, hbig]
      push_cast
      nlinarith [Real.sqrt_nonneg 2, sqrt_two_gt, hmqR, hgapR]
    have hPb : absLt1 ((⟨qabs (p2.x - p1.x + (p2.y - p1.y)), qabs (p2.y - p1.y)⟩ : RootTwo) - (⟨qabs (p2.x - p1.x + (p2.y - p1.y)), qabs (p2.x - p1.x)⟩ : RootTwo)) = false := by
      rw [RootTwo.sub_def]
      apply absLt1_false_of
      refine le_trans ?_ (le_abs_self _)
      rw [RootTwo.toReal_mk]
      simp only [hsmall, hbig]
      push_cast
      nlinarith [Real.sqrt_nonneg 2, sqrt_two_gt, hmqR, hgapR]
    have hPc : absLt1 ((⟨qabs (p2.x - p1.x - (p2.y - p1.y)), qabs (p2.y - p1.y)⟩ : RootTwo) - (⟨qabs (p2.x - p1.x + (p2.y - p1.y)), qabs (p2.x - p1.x)⟩ : RootTwo)) = false := by
      rw [RootTwo.sub_def]
      apply absLt1_false_of
      refine le_trans ?_ (le_abs_self _)
      rw [RootTwo.toReal_mk]
      simp only [hsmall, hbig]
      push_cast
      nlinarith [Real.sqrt_nonneg 2, sqrt_two_gt, hmqR, hgapR]
    have hwmem : (⟨[p1, (⟨p1.x, p2.y - (p1.x - p2.x)⟩ : Pt), p2], ⟨qabs (p2.x - p1.x + (p2.y - p1.y)), qabs (p2.x - p1.x)⟩, false⟩ : Cand) ∈ octoValid p1 p2 := by
      rw [hvalid]
      refine List.mem_filter.mpr ⟨?_, ?_⟩
      · exact List.mem_cons_of_mem _ (List.mem_cons_of_mem _ (List.mem_cons_of_mem _ (List.mem_cons_self _ _)))
      · exact hVw
    have hvne : ¬(octoValid p1 p2 = []) := List.ne_nil_of_mem hwmem
    have hmin : ∀ c ∈ octoValid p1 p2, ((⟨qabs (p2.x - p1.x + (p2.y - p1.y)), qabs (p2.x - p1.x)⟩ : RootTwo)).toReal ≤ c.len.toReal := by
      intro c hc
      rw [hvalid] at hc
      have hc2 := (List.mem_filter.mp hc).1
      simp only [candList, List.mem_cons, List.not_mem_nil, or_false] at hc2
      rcases hc2 with rfl | rfl | rfl | rfl | rfl | rfl | rfl | rfl <;>
        simp only [hsmall, hbig, RootTwo.toReal_mk] <;> push_cast <;>
        nlinarith [Real.sqrt_nonneg 2, hmqR, hgapR, hltR]
    have hshort : octoShortest p1 p2 = (⟨qabs (p2.x - p1.x + (p2.y - p1.y)), qabs (p2.x - p1.x)⟩ : RootTwo) :=
      octoShortest_eq p1 p2 _ _ hwmem rfl hmin
    have hob : octoBest p1 p2 =
        (octoSorted p1 p2).filter (fun c => absLt1 (c.len - (⟨qabs (p2.x - p1.x + (p2.y - p1.y)), qabs (p2.x - p1.x)⟩ : RootTwo))) := by
      unfold octoBest
      simp only [hshort]
    have hfil : (octoValid p1 p2).filter (fun c => absLt1 (c.len - (⟨qabs (p2.x - p1.x + (p2.y - p1.y)), qabs (p2.x - p1.x)⟩ : RootTwo))) =
        [(⟨[p1, (⟨p1.x, p2.y - (p1.x - p2.x)⟩ : Pt), p2], ⟨qabs (p2.x - p1.x + (p2.y - p1.y)), qabs (p2.x - p1.x)⟩, false⟩ : Cand), (⟨[p1, (⟨p2.x, p1.y - (p2.x - p1.x)⟩ : Pt), p2], ⟨qabs (p2.x - p1.x + (p2.y - p1.y)), qabs (p2.x - p1.x)⟩, true⟩ : Cand)] := by
      rw [hvalid, List.filter_filter]
      simp only [candList, List.filter_cons, List.filter_nil, hPwin, hPa, hPb, hPc,
        hVw, Bool.false_and, Bool.true_and, Bool.false_eq_true, if_false, if_true]
    have hbest : (octoBest p1 p2).Perm [(⟨[p1, (⟨p1.x, p2.y - (p1.x - p2.x)⟩ : Pt), p2], ⟨qabs (p2.x - p1.x + (p2.y - p1.y)), qabs (p2.x - p1.x)⟩, false⟩ : Cand), (⟨[p1, (⟨p2.x, p1.y - (p2.x - p1.x)⟩ : Pt), p2], ⟨qabs (p2.x - p1.x + (p2.y - p1.y)), qabs (p2.x - p1.x)⟩, true⟩ : Cand)] := by
      rw [hob]
      have hp := List.Perm.filter (fun c => absLt1 (c.len - (⟨qabs (p2.x - p1.x + (p2.y - p1.y)), qabs (p2.x - p1.x)⟩ : RootTwo)))
        (jsSort_perm lenLe (octoValid p1 p2))
      rw [hfil] at hp
      exact hp
    have hbest2 : (octoBest p1 p2).Perm [(⟨[p1, (⟨p2.x, p1.y - (p2.x - p1.x)⟩ : Pt), p2], ⟨qabs (p2.x - p1.x + (p2.y - p1.y)), qabs (p2.x - p1.x)⟩, true⟩ : Cand), (⟨[p1, (⟨p1.x, p2.y - (p1.x - p2.x)⟩ : Pt), p2], ⟨qabs (p2.x - p1.x + (p2.y - p1.y)), qabs (p2.x - p1.x)⟩, false⟩ : Cand)] :=
      hbest.trans (List.Perm.swap _ _ _)
    refine ⟨(⟨[p1, (⟨p2.x, p1.y - (p2.x - p1.x)⟩ : Pt), p2], ⟨qabs (p2.x - p1.x + (p2.y - p1.y)), qabs (p2.x - p1.x)⟩, true⟩ : Cand), (⟨[p1, (⟨p1.x, p2.y - (p1.x - p2.x)⟩ : Pt), p2], ⟨qabs (p2.x - p1.x + (p2.y - p1.y)), qabs (p2.x - p1.x)⟩, false⟩ : Cand), ?_, ?_, rfl, rfl, rfl, ?_, ?_, (⟨p2.x, p1.y - (p2.x - p1.x)⟩ : Pt), (⟨p1.x, p2.y - (p1.x - p2.x)⟩ : Pt), rfl, rfl, ?_, ?_⟩
    · rw [hcand]
      exact List.mem_cons_of_mem _ (List.mem_cons_of_mem _ (List.mem_cons_of_mem _ (List.mem_cons_of_mem _ (List.mem_cons_of_mem _ (List.mem_cons_of_mem _ (List.mem_cons_of_mem _ (List.mem_cons_self _ _)))))))
    · rw [hcand]
      exact List.mem_cons_of_mem _ (List.mem_cons_of_mem _ (List.mem_cons_of_mem _ (List.mem_cons_self _ _)))
    · unfold getOctolinearSegment
      rw [if_neg hnal, if_neg hvne]
      rw [famSort_head false _ _ _ rfl rfl hbest2]
      rfl
    · unfold getOctolinearSegment
      rw [if_neg hnal, if_neg hvne]
      rw [famSort_head true _ _ _ rfl rfl hbest2]
      rfl
    · exact Pt.ne_of_x (show p2.x ≠ p1.x from fun hc => hdx (by rw [hc]; exact sub_self _))
    · have e1 : segLenR p1 (⟨p2.x, p1.y - (p2.x - p1.x)⟩ : Pt) = segLenR (⟨p1.x, p2.y - (p1.x - p2.x)⟩ : Pt) p2 := by
        unfold segLenR
        congr 1
        push_cast
        ring
      have e2 : segLenR (⟨p2.x, p1.y - (p2.x - p1.x)⟩ : Pt) p2 = segLenR p1 (⟨p1.x, p2.y - (p1.x - p2.x)⟩ : Pt) := by
        unfold segLenR
        congr 1
        push_cast
        ring
      linarith
  case inl.intro.inr =>
    have hsmall : qabs (p2.x - p1.x + (p2.y - p1.y)) = qabs (p2.x - p1.x) - qabs (p2.y - p1.y) := by
      rw [hA2, qabs_eq, abs_of_pos (show (0:ℚ) < qabs (p2.x - p1.x) - qabs (p2.y - p1.y) from by linarith)]
    have hgapq : 1 ≤ qabs (p2.x - p1.x) - qabs (p2.y - p1.y) := by
      rw [qabs_eq, abs_of_pos (show (0:ℚ) < qabs (p2.x - p1.x) - qabs (p2.y - p1.y) from by linarith)] at h3
      exact h3
    have hltR : ((qabs (p2.y - p1.y) : ℚ) : ℝ) ≤ ((qabs (p2.x - p1.x) : ℚ) : ℝ) := by exact_mod_cast hlt.le
    have hbig : qabs (p2.x - p1.x - (p2.y - p1.y)) = qabs (p2.x - p1.x) + qabs (p2.y - p1.y) := hA1
    have hgapR : (1 : ℝ) ≤ ((qabs (p2.x - p1.x) : ℚ) : ℝ) - ((qabs (p2.y - p1.y) : ℚ) : ℝ) := by
      exact_mod_cast hgapq
    have hmqR : (1 : ℝ) ≤ ((qabs (p2.y - p1.y) : ℚ) : ℝ) := by exact_mod_cast h2
    have hVw : ltDirect ((⟨qabs (p2.x - p1.x + (p2.y - p1.y)), qabs (p2.y - p1.y)⟩ : RootTwo)) ((p2.x - p1.x) ^ 2 + (p2.y - p1.y) ^ 2) = true := by
      rw [show ((⟨qabs (p2.x - p1.x + (p2.y - p1.y)), qabs (p2.y - p1.y)⟩ : RootTwo)) = ⟨qabs (p2.x - p1.x) - qabs (p2.y - p1.y), qabs (p2.y - p1.y)⟩ from by rw [hsmall]]
      exact ltDirect_of _ _ _ h2 hlt.le (by rw [qabs_sq, qabs_sq]; try ring)
    have hPwin : absLt1 ((⟨qabs (p2.x - p1.x + (p2.y - p1.y)), qabs (p2.y - p1.y)⟩ : RootTwo) - (⟨qabs (p2.x - p1.x + (p2.y - p1.y)), qabs (p2.y - p1.y)⟩ : RootTwo)) = true := by
      rw [RootTwo.sub_def]
      simp only [sub_self]
      exact absLt1_zero
    have hPa : absLt1 ((⟨qabs (p2.x - p1.x - (p2.y - p1.y)), qabs (p2.y - p1.y)⟩ : RootTwo) - (⟨qabs (p2.x - p1.x + (p2.y - p1.y)), qabs (p2.y - p1.y)⟩ : RootTwo)) = false := by
      rw [RootTwo.sub_def]
      apply absLt1_false_of
      refine le_trans ?_ (le_abs_self _)
      rw [RootTwo.toReal_mk]
      simp only [hsmall, hbig]
      push_cast
      nlinarith [Real.sqrt_nonneg 2, sqrt_two_gt, hmqR, hgapR]
    have hPb : absLt1 ((⟨qabs (p2.x - p1.x + (p2.y - p1.y)), qabs (p2.x - p1.x)⟩ : RootTwo) - (⟨qabs (p2.x - p1.x + (p2.y - p1.y)), qabs (p2.y - p1.y)⟩ : RootTwo)) = false := by
      rw [RootTwo.sub_def]
      apply absLt1_false_of
      refine le_trans ?_ (le_abs_self _)
      rw [RootTwo.toReal_mk]
      simp only [hsmall, hbig]
      push_cast
      nlinarith [Real.sqrt_nonneg 2, sqrt_two_gt, hmqR, hgapR]
    have hPc : absLt1 ((⟨qabs (p2.x - p1.x - (p2.y - p1.y)), qabs (p2.x - p1.x)⟩ : RootTwo) - (⟨qabs (p2.x - p1.x + (p2.y - p1.y)), qabs (p2.y - p1.y)⟩ : RootTwo)) = false := by
      rw [RootTwo.sub_def]
      apply absLt1_false_of
      refine le_trans ?_ (le_abs_self _)
      rw [RootTwo.toReal_mk]
      simp only [hsmall, hbig]
      push_cast
      nlinarith [Real.sqrt_nonneg 2, sqrt_two_gt, hmqR, hgapR]
    have hwmem : (⟨[p1, (⟨p2.x - (p1.y - p2.y), p1.y⟩ : Pt), p2], ⟨qabs (p2.x - p1.x + (p2.y - p1.y)), qabs (p2.y - p1.y)⟩, true⟩ : Cand) ∈ octoValid p1 p2 := by
      rw [hvalid]
      refine List.mem_filter.mpr ⟨?_, ?_⟩
      · exact List.mem_cons_of_mem _ (List.mem_cons_self _ _)
      · exact hVw
    have hvne : ¬(octoValid p1 p2 = []) := List.ne_nil_of_mem hwmem
    have hmin : ∀ c ∈ octoValid p1 p2, ((⟨qabs (p2.x - p1.x + (p2.y - p1.y)), qabs (p2.y - p1.y)⟩ : RootTwo)).toReal ≤ c.len.toReal := by
      intro c hc
      rw [hvalid] at hc
      have hc2 := (List.mem_filter.mp hc).1
      simp only [candList, List.mem_cons, List.not_mem_nil, or_false] at hc2
      rcases hc2 with rfl | rfl | rfl | rfl | rfl | rfl | rfl | rfl <;>
        simp only [hsmall, hbig, RootTwo.toReal_mk] <;> push_cast <;>
        nlinarith [Real.sqrt_nonneg 2, hmqR, hgapR, hltR]
    have hshort : octoShortest p1 p2 = (⟨qabs (p2.x - p1.x + (p2.y - p1.y)), qabs (p2.y - p1.y)⟩ : RootTwo) :=
      octoShortest_eq p1 p2 _ _ hwmem rfl hmin
    have hob : octoBest p1 p2 =
        (octoSorted p1 p2).filter (fun c => absLt1 (c.len - (⟨qabs (p2.x - p1.x + (p2.y - p1.y)), qabs (p2.y - p1.y)⟩ : RootTwo))) := by
      unfold octoBest
      simp only [hshort]
    have hfil : (octoValid p1 p2).filter (fun c => absLt1 (c.len - (⟨qabs (p2.x - p1.x + (p2.y - p1.y)), qabs (p2.y - p1.y)⟩ : RootTwo))) =
        [(⟨[p1, (⟨p2.x - (p1.y - p2.y), p1.y⟩ : Pt), p2], ⟨qabs (p2.x - p1.x + (p2.y - p1.y)), qabs (p2.y - p1.y)⟩, true⟩ : Cand), (⟨[p1, (⟨p1.x - (p2.y - p1.y), p2.y⟩ : Pt), p2], ⟨qabs (p2.x - p1.x + (p2.y - p1.y)), qabs (p2.y - p1.y)⟩, false⟩ : Cand)] := by
      rw [hvalid, List.filter_filter]
      simp only [candList, List.filter_cons, List.filter_nil, hPwin, hPa, hPb, hPc,
        hVw, Bool.false_and, Bool.true_and, Bool.false_eq_true, if_false, if_true]
    have hbest : (octoBest p1 p2).Perm [(⟨[p1, (⟨p2.x - (p1.y - p2.y), p1.y⟩ : Pt), p2], ⟨qabs (p2.x - p1.x + (p2.y - p1.y)), qabs (p2.y - p1.y)⟩, true⟩ : Cand), (⟨[p1, (⟨p1.x - (p2.y - p1.y), p2.y⟩ : Pt), p2], ⟨qabs (p2.x - p1.x + (p2.y - p1.y)), qabs (p2.y - p1.y)⟩, false⟩ : Cand)] := by
      rw [hob]
      have hp := List.Perm.filter (fun c => absLt1 (c.len - (⟨qabs (p2.x - p1.x + (p2.y - p1.y)), qabs (p2.y - p1.y)⟩ : RootTwo)))
        (jsSort_perm lenLe (octoValid p1 p2))
      rw [hfil] at hp
      exact hp
    have hbest2 : (octoBest p1 p2).Perm [(⟨[p1, (⟨p2.x - (p1.y - p2.y), p1.y⟩ : Pt), p2], ⟨qabs (p2.x - p1.x + (p2.y - p1.y)), qabs (p2.y - p1.y)⟩, true⟩ : Cand), (⟨[p1, (⟨p1.x - (p2.y - p1.y), p2.y⟩ : Pt), p2], ⟨qabs (p2.x - p1.x + (p2.y - p1.y)), qabs (p2.y - p1.y)⟩, false⟩ : Cand)] := hbest
    refine ⟨(⟨[p1, (⟨p2.x - (p1.y - p2.y), p1.y⟩ : Pt), p2], ⟨qabs (p2.x - p1.x + (p2.y - p1.y)), qabs (p2.y - p1.y)⟩, true⟩ : Cand), (⟨[p1, (⟨p1.x - (p2.y - p1.y), p2.y⟩ : Pt), p2], ⟨qabs (p2.x - p1.x + (p2.y - p1.y)), qabs (p2.y - p1.y)⟩, false⟩ : Cand), ?_, ?_, rfl, rfl, rfl, ?_, ?_, (⟨p2.x - (p1.y - p2.y), p1.y⟩ : Pt), (⟨p1.x - (p2.y - p1.y), p2.y⟩ : Pt), rfl, rfl, ?_, ?_⟩
    · rw [hcand]
      exact List.mem_cons_of_mem _ (List.mem_cons_self _ _)
    · rw [hcand]
      exact List.mem_cons_of_mem _ (List.mem_cons_of_mem _ (List.mem_cons_of_mem _ (List.mem_cons_of_mem _ (List.mem_cons_of_mem _ (List.mem_cons_self _ _)))))
    · unfold getOctolinearSegment
      rw [if_neg hnal, if_neg hvne]
      rw [famSort_head false _ _ _ rfl rfl hbest2]
      rfl
    · unfold getOctolinearSegment
      rw [if_neg hnal, if_neg hvne]
      rw [famSort_head true _ _ _ rfl rfl hbest2]
      rfl
    · exact Pt.ne_of_y (show p1.y ≠ p2.y from fun hc => hdy (by rw [hc]; exact sub_self _))
    · have e1 : segLenR p1 (⟨p2.x - (p1.y - p2.y), p1.y⟩ : Pt) = segLenR (⟨p1.x - (p2.y - p1.y), p2.y⟩ : Pt) p2 := by
        unfold segLenR
        congr 1
        push_cast
        ring
      have e2 : segLenR (⟨p2.x - (p1.y - p2.y), p1.y⟩ : Pt) p2 = segLenR p1 (⟨p1.x - (p2.y - p1.y), p2.y⟩ : Pt) := by
        unfold segLenR
        congr 1
        push_cast
        ring
      linarith
  case inr.intro.inl =>
    have hsmall : qabs (p2.x - p1.x - (p2.y - p1.y)) = qabs (p2.y - p1.y) - qabs (p2.x - p1.x) := by
      rw [hA1, qabs_eq, abs_of_neg (show qabs (p2.x - p1.x) - qabs (p2.y - p1.y) < 0 from by linarith)]
      ring
    have hgapq : 1 ≤ qabs (p2.y - p1.y) - qabs (p2.x - p1.x) := by
      rw [qabs_eq, abs_of_neg (show qabs (p2.x - p1.x) - qabs (p2.y - p1.y) < 0 from by linarith)] at h3
      linarith
    have hltR : ((qabs (p2.x - p1.x) : ℚ) : ℝ) ≤ ((qabs (p2.y - p1.y) : ℚ) : ℝ) := by exact_mod_cast hlt.le
    have hbig : qabs (p2.x - p1.x + (p2.y - p1.y)) = qabs (p2.x - p1.x) + qabs (p2.y - p1.y) := hA2
    have hgapR : (1 : ℝ) ≤ ((qabs (p2.y - p1.y) : ℚ) : ℝ) - ((qabs (p2.x - p1.x) : ℚ) : ℝ) := by
      exact_mod_cast hgapq
    have hmqR : (1 : ℝ) ≤ ((qabs (p2.x - p1.x) : ℚ) : ℝ) := by exact_mod_cast h1
    have hVw : ltDirect ((⟨qabs (p2.x - p1.x - (p2.y - p1.y)), qabs (p2.x - p1.x)⟩ : RootTwo)) ((p2.x - p1.x) ^ 2 + (p2.y - p1.y) ^ 2) = true := by
      rw [show ((⟨qabs (p2.x - p1.x - (p2.y - p1.y)), qabs (p2.x - p1.x)⟩ : RootTwo)) = ⟨qabs (p2.y - p1.y) - qabs (p2.x - p1.x), qabs (p2.x - p1.x)⟩ from by rw [hsmall]]
      exact ltDirect_of _ _ _ h1 hlt.le (by rw [qabs_sq, qabs_sq]; try ring)
    have hPwin : absLt1 ((⟨qabs (p2.x - p1.x - (p2.y - p1.y)), qabs (p2.x - p1.x)⟩ : RootTwo) - (⟨qabs (p2.x - p1.x - (p2.y - p1.y)), qabs (p2.x - p1.x)⟩ : RootTwo)) = true := by
      rw [RootTwo.sub_def]
      simp only [sub_self]
      exact absLt1_zero
    have hPa : absLt1 ((⟨qabs (p2.x - p1.x + (p2.y - p1.y)), qabs (p2.x - p1.x)⟩ : RootTwo) - (⟨qabs (p2.x - p1.x - (p2.y - p1.y)), qabs (p2.x - p1.x)⟩ : RootTwo)) = false := by
      rw [RootTwo.sub_def]
      apply absLt1_false_of
      refine le_trans ?_ (le_abs_self _)
      rw [RootTwo.toReal_mk]
      simp only [hsmall, hbig]
      push_cast
      nlinarith [Real.sqrt_nonneg 2, sqrt_two_gt, hmqR, hgapR]
    have hPb : absLt1 ((⟨qabs (p2.x - p1.x - (p2.y - p1.y)), qabs (p2.y - p1.y)⟩ : RootTwo) - (⟨qabs (p2.x - p1.x - (p2.y - p1.y)), qabs (p2.x - p1.x)⟩ : RootTwo)) = false := by
      rw [RootTwo.sub_def]
      apply absLt1_false_of
      refine le_trans ?_ (le_abs_self _)
      rw [RootTwo.toReal_mk]
      simp only [hsmall, hbig]
      push_cast
      nlinarith [Real.sqrt_nonneg 2, sqrt_two_gt, hmqR, hgapR]
    have hPc : absLt1 ((⟨qabs (p2.x - p1.x + (p2.y - p1.y)), qabs (p2.y - p1.y)⟩ : RootTwo) - (⟨qabs (p2.x - p1.x - (p2.y - p1.y)), qabs (p2.x - p1.x)⟩ : RootTwo)) = false := by
      rw [RootTwo.sub_def]
      apply absLt1_false_of
      refine le_trans ?_ (le_abs_self _)
      rw [RootTwo.toReal_mk]
      simp only [hsmall, hbig]
      push_cast
      nlinarith [Real.sqrt_nonneg 2, sqrt_two_gt, hmqR, hgapR]
    have hwmem : (⟨[p1, (⟨p1.x, p2.y + (p1.x - p2.x)⟩ : Pt), p2], ⟨qabs (p2.x - p1.x - (p2.y - p1.y)), qabs (p2.x - p1.x)⟩, false⟩ : Cand) ∈ octoValid p1 p2 := by
      rw [hvalid]
      refine List.mem_filter.mpr ⟨?_, ?_⟩
      · exact List.mem_cons_of_mem _ (List.mem_cons_of_mem _ (List.mem_cons_self _ _))
      · exact hVw
    have hvne : ¬(octoValid p1 p2 = []) := List.ne_nil_of_mem hwmem
    have hmin : ∀ c ∈ octoValid p1 p2, ((⟨qabs (p2.x - p1.x - (p2.y - p1.y)), qabs (p2.x - p1.x)⟩ : RootTwo)).toReal ≤ c.len.toReal := by
      intro c hc
      rw [hvalid] at hc
      have hc2 := (List.mem_filter.mp hc).1
      simp only [candList, List.mem_cons, List.not_mem_nil, or_false] at hc2
      rcases hc2 with rfl | rfl | rfl | rfl | rfl | rfl | rfl | rfl <;>
        simp only [hsmall, hbig, RootTwo.toReal_mk] <;> push_cast <;>
        nlinarith [Real.sqrt_nonneg 2, hmqR, hgapR, hltR]
    have hshort : octoShortest p1 p2 = (⟨qabs (p2.x - p1.x - (p2.y - p1.y)), qabs (p2.x - p1.x)⟩ : RootTwo) :=
      octoShortest_eq p1 p2 _ _ hwmem rfl hmin
    have hob : octoBest p1 p2 =
        (octoSorted p1 p2).filter (fun c => absLt1 (c.len - (⟨qabs (p2.x - p1.x - (p2.y - p1.y)), qabs (p2.x - p1.x)⟩ : RootTwo))) := by
      unfold octoBest
      simp only [hshort]
    have hfil : (octoValid p1 p2).filter (fun c => absLt1 (c.len - (⟨qabs (p2.x - p1.x - (p2.y - p1.y)), qabs (p2.x - p1.x)⟩ : RootTwo))) =
        [(⟨[p1, (⟨p1.x, p2.y + (p1.x - p2.x)⟩ : Pt), p2], ⟨qabs (p2.x - p1.x - (p2.y - p1.y)), qabs (p2.x - p1.x)⟩, false⟩ : Cand), (⟨[p1, (⟨p2.x, p1.y + (p2.x - p1.x)⟩ : Pt), p2], ⟨qabs (p2.x - p1.x - (p2.y - p1.y)), qabs (p2.x - p1.x)⟩, true⟩ : Cand)] := by
      rw [hvalid, List.filter_filter]
      simp only [candList, List.filter_cons, List.filter_nil, hPwin, hPa, hPb, hPc,
        hVw, Bool.false_and, Bool.true_and, Bool.false_eq_true, if_false, if_true]
    have hbest : (octoBest p1 p2).Perm [(⟨[p1, (⟨p1.x, p2.y + (p1.x - p2.x)⟩ : Pt), p2], ⟨qabs (p2.x - p1.x - (p2.y - p1.y)), qabs (p2.x - p1.x)⟩, false⟩ : Cand), (⟨[p1, (⟨p2.x, p1.y + (p2.x - p1.x)⟩ : Pt), p2], ⟨qabs (p2.x - p1.x - (p2.y - p1.y)), qabs (p2.x - p1.x)⟩, true⟩ : Cand)] := by
      rw [hob]
      have hp := List.Perm.filter (fun c => absLt1 (c.len - (⟨qabs (p2.x - p1.x - (p2.y - p1.y)), qabs (p2.x - p1.x)⟩ : RootTwo)))
        (jsSort_perm lenLe (octoValid p1 p2))
      rw [hfil] at hp
      exact hp
    have hbest2 : (octoBest p1 p2).Perm [(⟨[p1, (⟨p2.x, p1.y + (p2.x - p1.x)⟩ : Pt), p2], ⟨qabs (p2.x - p1.x - (p2.y - p1.y)), qabs (p2.x - p1.x)⟩, true⟩ : Cand), (⟨[p1, (⟨p1.x, p2.y + (p1.x - p2.x)⟩ : Pt), p2], ⟨qabs (p2.x - p1.x - (p2.y - p1.y)), qabs (p2.x - p1.x)⟩, false⟩ : Cand)] :=
      hbest.trans (List.Perm.swap _ _ _)
    refine ⟨(⟨[p1, (⟨p2.x, p1.y + (p2.x - p1.x)⟩ : Pt), p2], ⟨qabs (p2.x - p1.x - (p2.y - p1.y)), qabs (p2.x - p1.x)⟩, true⟩ : Cand), (⟨[p1, (⟨p1.x, p2.y + (p1.x - p2.x)⟩ : Pt), p2], ⟨qabs (p2.x - p1.x - (p2.y - p1.y)), qabs (p2.x - p1.x)⟩, false⟩ : Cand), ?_, ?_, rfl, rfl, rfl, ?_, ?_, (⟨p2.x, p1.y + (p2.x - p1.x)⟩ : Pt), (⟨p1.x, p2.y + (p1.x - p2.x)⟩ : Pt), rfl, rfl, ?_, ?_⟩
    · rw [hcand]
      exact List.mem_cons_of_mem _ (List.mem_cons_of_mem _ (List.mem_cons_of_mem _ (List.mem_cons_of_mem _ (List.mem_cons_of_mem _ (List.mem_cons_of_mem _ (List.mem_cons_self _ _))))))
    · rw [hcand]
      exact List.mem_cons_of_mem _ (List.mem_cons_of_mem _ (List.mem_cons_self _ _))
    · unfold getOctolinearSegment
      rw [if_neg hnal, if_neg hvne]
      rw [famSort_head false _ _ _ rfl rfl hbest2]
      rfl
    · unfold getOctolinearSegment
      rw [if_neg hnal, if_neg hvne]
      rw [famSort_head true _ _ _ rfl rfl hbest2]
      rfl
    · exact Pt.ne_of_x (show p2.x ≠ p1.x from fun hc => hdx (by rw [hc]; exact sub_self _))
    · have e1 : segLenR p1 (⟨p2.x, p1.y + (p2.x - p1.x)⟩ : Pt) = segLenR (⟨p1.x, p2.y + (p1.x - p2.x)⟩ : Pt) p2 := by
        unfold segLenR
        congr 1
        push_cast
        ring
      have e2 : segLenR (⟨p2.x, p1.y + (p2.x - p1.x)⟩ : Pt) p2 = segLenR p1 (⟨p1.x, p2.y + (p1.x - p2.x)⟩ : Pt) := by
        unfold segLenR
        congr 1
        push_cast
        ring
      linarith
  case inr.intro.inr =>
    have hsmall : qabs (p2.x - p1.x - (p2.y - p1.y)) = qabs (p2.x - p1.x) - qabs (p2.y - p1.y) := by
      rw [hA1, qabs_eq, abs_of_pos (show (0:ℚ) < qabs (p2.x - p1.x) - qabs (p2.y - p1.y) from by linarith)]
    have hgapq : 1 ≤ qabs (p2.x - p1.x) - qabs (p2.y - p1.y) := by
      rw [qabs_eq, abs_of_pos (show (0:ℚ) < qabs (p2.x - p1.x) - qabs (p2.y - p1.y) from by linarith)] at h3
      exact h3
    have hltR : ((qabs (p2.y - p1.y) : ℚ) : ℝ) ≤ ((qabs (p2.x - p1.x) : ℚ) : ℝ) := by exact_mod_cast hlt.le
    have hbig : qabs (p2.x - p1.x + (p2.y - p1.y)) = qabs (p2.x - p1.x) + qabs (p2.y - p1.y) := hA2
    have hgapR : (1 : ℝ) ≤ ((qabs (p2.x - p1.x) : ℚ) : ℝ) - ((qabs (p2.y - p1.y) : ℚ) : ℝ) := by
      exact_mod_cast hgapq
    have hmqR : (1 : ℝ) ≤ ((qabs (p2.y - p1.y) : ℚ) : ℝ) := by exact_mod_cast h2
    have hVw : ltDirect ((⟨qabs (p2.x - p1.x - (p2.y - p1.y)), qabs (p2.y - p1.y)⟩ : RootTwo)) ((p2.x - p1.x) ^ 2 + (p2.y - p1.y) ^ 2) = true := by
      rw [show ((⟨qabs (p2.x - p1.x - (p2.y - p1.y)), qabs (p2.y - p1.y)⟩ : RootTwo)) = ⟨qabs (p2.x - p1.x) - qabs (p2.y - p1.y), qabs (p2.y - p1.y)⟩ from by rw [hsmall]]
      exact ltDirect_of _ _ _ h2 hlt.le (by rw [qabs_sq, qabs_sq]; try ring)
    have hPwin : absLt1 ((⟨qabs (p2.x - p1.x - (p2.y - p1.y)), qabs (p2.y - p1.y)⟩ : RootTwo) - (⟨qabs (p2.x - p1.x - (p2.y - p1.y)), qabs (p2.y - p1.y)⟩ : RootTwo)) = true := by
      rw [RootTwo.sub_def]
      simp only [sub_self]
      exact absLt1_zero
    have hPa : absLt1 ((⟨qabs (p2.x - p1.x + (p2.y - p1.y)), qabs (p2.y - p1.y)⟩ : RootTwo) - (⟨qabs (p2.x - p1.x - (p2.y - p1.y)), qabs (p2.y - p1.y)⟩ : RootTwo)) = false := by
      rw [RootTwo.sub_def]
      apply absLt1_false_of
      refine le_trans ?_ (le_abs_self _)
      rw [RootTwo.toReal_mk]
      simp only [hsmall, hbig]
      push_cast
      nlinarith [Real.sqrt_nonneg 2, sqrt_two_gt, hmqR, hgapR]
    have hPb : absLt1 ((⟨qabs (p2.x - p1.x - (p2.y - p1.y)), qabs (p2.x - p1.x)⟩ : RootTwo) - (⟨qabs (p2.x - p1.x - (p2.y - p1.y)), qabs (p2.y - p1.y)⟩ : RootTwo)) = false := by
      rw [RootTwo.sub_def]
      apply absLt1_false_of
      refine le_trans ?_ (le_abs_self _)
      rw [RootTwo.toReal_mk]
      simp only [hsmall, hbig]
      push_cast
      nlinarith [Real.sqrt_nonneg 2, sqrt_two_gt, hmqR, hgapR]
    have hPc : absLt1 ((⟨qabs (p2.x - p1.x + (p2.y - p1.y)), qabs (p2.x - p1.x)⟩ : RootTwo) - (⟨qabs (p2.x - p1.x - (p2.y - p1.y)), qabs (p2.y - p1.y)⟩ : RootTwo)) = false := by
      rw [RootTwo.sub_def]
      apply absLt1_false_of
      refine le_trans ?_ (le_abs_self _)
      rw [RootTwo.toReal_mk]
      simp only [hsmall, hbig]
      push_cast
      nlinarith [Real.sqrt_nonneg 2, sqrt_two_gt, hmqR, hgapR]
    have hwmem : (⟨[p1, (⟨p2.x + (p1.y - p2.y), p1.y⟩ : Pt), p2], ⟨qabs (p2.x - p1.x - (p2.y - p1.y)), qabs (p2.y - p1.y)⟩, true⟩ : Cand) ∈ octoValid p1 p2 := by
      rw [hvalid]
      refine List.mem_filter.mpr ⟨?_, ?_⟩
      · exact List.mem_cons_self _ _
      · exact hVw
    have hvne : ¬(octoValid p1 p2 = []) := List.ne_nil_of_mem hwmem
    have hmin : ∀ c ∈ octoValid p1 p2, ((⟨qabs (p2.x - p1.x - (p2.y - p1.y)), qabs (p2.y - p1.y)⟩ : RootTwo)).toReal ≤ c.len.toReal := by
      intro c hc
      rw [hvalid] at hc
      have hc2 := (List.mem_filter.mp hc).1
      simp only [candList, List.mem_cons, List.not_mem_nil, or_false] at hc2
      rcases hc2 with rfl | rfl | rfl | rfl | rfl | rfl | rfl | rfl <;>
        simp only [hsmall, hbig, RootTwo.toReal_mk] <;> push_cast <;>
        nlinarith [Real.sqrt_nonneg 2, hmqR, hgapR, hltR]
    have hshort : octoShortest p1 p2 = (⟨qabs (p2.x - p1.x - (p2.y - p1.y)), qabs (p2.y - p1.y)⟩ : RootTwo) :=
      octoShortest_eq p1 p2 _ _ hwmem rfl hmin
    have hob : octoBest p1 p2 =
        (octoSorted p1 p2).filter (fun c => absLt1 (c.len - (⟨qabs (p2.x - p1.x - (p2.y - p1.y)), qabs (p2.y - p1.y)⟩ : RootTwo))) := by
      unfold octoBest
      simp only [hshort]
    have hfil : (octoValid p1 p2).filter (fun c => absLt1 (c.len - (⟨qabs (p2.x - p1.x - (p2.y - p1.y)), qabs (p2.y - p1.y)⟩ : RootTwo))) =
        [(⟨[p1, (⟨p2.x + (p1.y - p2.y), p1.y⟩ : Pt), p2], ⟨qabs (p2.x - p1.x - (p2.y - p1.y)), qabs (p2.y - p1.y)⟩, true⟩ : Cand), (⟨[p1, (⟨p1.x + (p2.y - p1.y), p2.y⟩ : Pt), p2], ⟨qabs (p2.x - p1.x - (p2.y - p1.y)), qabs (p2.y - p1.y)⟩, false⟩ : Cand)] := by
      rw [hvalid, List.filter_filter]
      simp only [candList, List.filter_cons, List.filter_nil, hPwin, hPa, hPb, hPc,
        hVw, Bool.false_and, Bool.true_and, Bool.false_eq_true, if_false, if_true]
    have hbest : (octoBest p1 p2).Perm [(⟨[p1, (⟨p2.x + (p1.y - p2.y), p1.y⟩ : Pt), p2], ⟨qabs (p2.x - p1.x - (p2.y - p1.y)), qabs (p2.y - p1.y)⟩, true⟩ : Cand), (⟨[p1, (⟨p1.x + (p2.y - p1.y), p2.y⟩ : Pt), p2], ⟨qabs (p2.x - p1.x - (p2.y - p1.y)), qabs (p2.y - p1.y)⟩, false⟩ : Cand)] := by
      rw [hob]
      have hp := List.Perm.filter (fun c => absLt1 (c.len - (⟨qabs (p2.x - p1.x - (p2.y - p1.y)), qabs (p2.y - p1.y)⟩ : RootTwo)))
        (jsSort_perm lenLe (octoValid p1 p2))
      rw [hfil] at hp
      exact hp
    have hbest2 : (octoBest p1 p2).Perm [(⟨[p1, (⟨p2.x + (p1.y - p2.y), p1.y⟩ : Pt), p2], ⟨qabs (p2.x - p1.x - (p2.y - p1.y)), qabs (p2.y - p1.y)⟩, true⟩ : Cand), (⟨[p1, (⟨p1.x + (p2.y - p1.y), p2.y⟩ : Pt), p2], ⟨qabs (p2.x - p1.x - (p2.y - p1.y)), qabs (p2.y - p1.y)⟩, false⟩ : Cand)] := hbest
    refine ⟨(⟨[p1, (⟨p2.x + (p1.y - p2.y), p1.y⟩ : Pt), p2], ⟨qabs (p2.x - p1.x - (p2.y - p1.y)), qabs (p2.y - p1.y)⟩, true⟩ : Cand), (⟨[p1, (⟨p1.x + (p2.y - p1.y), p2.y⟩ : Pt), p2], ⟨qabs (p2.x - p1.x - (p2.y - p1.y)), qabs (p2.y - p1.y)⟩, false⟩ : Cand), ?_, ?_, rfl, rfl, rfl, ?_, ?_, (⟨p2.x + (p1.y - p2.y), p1.y⟩ : Pt), (⟨p1.x + (p2.y - p1.y), p2.y⟩ : Pt), rfl, rfl, ?_, ?_⟩
    · rw [hcand]
      exact List.mem_cons_self _ _
    · rw [hcand]
      exact List.mem_cons_of_mem _ (List.mem_cons_of_mem _ (List.mem_cons_of_mem _ (List.mem_cons_of_mem _ (List.mem_cons_self _ _))))
    · unfold getOctolinearSegment
      rw [if_neg hnal, if_neg hvne]
      rw [famSort_head false _ _ _ rfl rfl hbest2]
      rfl
    · unfold getOctolinearSegment
      rw [if_neg hnal, if_neg hvne]
      rw [famSort_head true _ _ _ rfl rfl hbest2]
      rfl
    · exact Pt.ne_of_y (show p1.y ≠ p2.y from fun hc => hdy (by rw [hc]; exact sub_self _))
    · have e1 : segLenR p1 (⟨p2.x + (p1.y - p2.y), p1.y⟩ : Pt) = segLenR (⟨p1.x + (p2.y - p1.y), p2.y⟩ : Pt) p2 := by
        unfold segLenR
        congr 1
        push_cast
        ring
      have e2 : segLenR (⟨p2.x + (p1.y - p2.y), p1.y⟩ : Pt) p2 = segLenR p1 (⟨p1.x + (p2.y - p1.y), p2.y⟩ : Pt) := by
        unfold segLenR
        congr 1
        push_cast
        ring
      linarith



theorem candList_octo (p1 p2 : Pt) (hdx : p2.x - p1.x ≠ 0) (hdy : p2.y - p1.y ≠ 0)
    (hd1 : p2.y - p1.y - (p2.x - p1.x) ≠ 0) (hd2 : p2.y - p1.y + (p2.x - p1.x) ≠ 0) :
    ∀ c ∈ candList p1 p2, ∃ m : Pt, c.points = [p1, m, p2] ∧
      IsOctoDir p1 m ∧ IsOctoDir m p2 := by
  have hxne : p2.x ≠ p1.x := fun hcx => hdx (by rw [hcx]; exact sub_self _)
  have hyne : p2.y ≠ p1.y := fun hcy => hdy (by rw [hcy]; exact sub_self _)
  intro c hc
  simp only [candList, List.mem_cons, List.not_mem_nil, or_false] at hc
  rcases hc with rfl | rfl | rfl | rfl | rfl | rfl | rfl | rfl
  · refine ⟨_, rfl, Or.inl ⟨rfl, ?_⟩, Or.inr (Or.inr ⟨?_, ?_⟩)⟩
    · show p2.x + (p1.y - p2.y) ≠ p1.x
      intro hcx
      exact hd1 (by linarith)
    · show |p2.x - (p2.x + (p1.y - p2.y))| = |p2.y - p1.y|
      rw [show p2.x - (p2.x + (p1.y - p2.y)) = p2.y - p1.y from by ring]
    · exact Pt.ne_of_y hyne
  · refine ⟨_, rfl, Or.inl ⟨rfl, ?_⟩, Or.inr (Or.inr ⟨?_, ?_⟩)⟩
    · show p2.x - (p1.y - p2.y) ≠ p1.x
      intro hcx
      exact hd2 (by linarith)
    · show |p2.x - (p2.x - (p1.y - p2.y))| = |p2.y - p1.y|
      rw [show p2.x - (p2.x - (p1.y - p2.y)) = -(p2.y - p1.y) from by ring, abs_neg]
    · exact Pt.ne_of_y hyne
  · refine ⟨_, rfl, Or.inr (Or.inl ⟨rfl, ?_⟩), Or.inr (Or.inr ⟨?_, ?_⟩)⟩
    · show p2.y + (p1.x - p2.x) ≠ p1.y
      intro hcy
      exact hd1 (by linarith)
    · show |p2.x - p1.x| = |p2.y - (p2.y + (p1.x - p2.x))|
      rw [show p2.y - (p2.y + (p1.x - p2.x)) = p2.x - p1.x from by ring]
    · exact Pt.ne_of_x hxne
  · refine ⟨_, rfl, Or.inr (Or.inl ⟨rfl, ?_⟩), Or.inr (Or.inr ⟨?_, ?_⟩)⟩
    · show p2.y - (p1.x - p2.x) ≠ p1.y
      intro hcy
      exact hd2 (by linarith)
    · show |p2.x - p1.x| = |p2.y - (p2.y - (p1.x - p2.x))|
      rw [show p2.y - (p2.y - (p1.x - p2.x)) = -(p2.x - p1.x) from by ring, abs_neg]
    · exact Pt.ne_of_x hxne
  · refine ⟨_, rfl, Or.inr (Or.inr ⟨?_, ?_⟩), Or.inl ⟨rfl, ?_⟩⟩
    · show |p1.x + (p2.y - p1.y) - p1.x| = |p2.y - p1.y|
      rw [show p1.x + (p2.y - p1.y) - p1.x = p2.y - p1.y from by ring]
    · exact Pt.ne_of_y hyne
    · show p2.x ≠ p1.x + (p2.y - p1.y)
      intro hcx
      exact hd1 (by linarith)
  · refine ⟨_, rfl, Or.inr (Or.inr ⟨?_, ?_⟩), Or.inl ⟨rfl, ?_⟩⟩
    · show |p1.x - (p2.y - p1.y) - p1.x| = |p2.y - p1.y|
      rw [show p1.x - (p2.y - p1.y) - p1.x = -(p2.y - p1.y) from by ring, abs_neg]
    · exact Pt.ne_of_y hyne
    · show p2.x ≠ p1.x - (p2.y - p1.y)
      intro hcx
      exact hd2 (by linarith)
  · refine ⟨_, rfl, Or.inr (Or.inr ⟨?_, ?_⟩), Or.inr (Or.inl ⟨rfl, ?_⟩)⟩
    · show |p2.x - p1.x| = |p1.y + (p2.x - p1.x) - p1.y|
      rw [show p1.y + (p2.x - p1.x) - p1.y = p2.x - p1.x from by ring]
    · exact Pt.ne_of_x hxne
    · show p2.y ≠ p1.y + (p2.x - p1.x)
      intro hcy
      exact hd1 (by linarith)
  · refine ⟨_, rfl, Or.inr (Or.inr ⟨?_, ?_⟩), Or.inr (Or.inl ⟨rfl, ?_⟩)⟩
    · show |p2.x - p1.x| = |p1.y - (p2.x - p1.x) - p1.y|
      rw [show p1.y - (p2.x - p1.x) - p1.y = -(p2.x - p1.x) from by ring, abs_neg]
    · exact Pt.ne_of_x hxne
    · show p2.y ≠ p1.y - (p2.x - p1.x)
      intro hcy
      exact hd2 (by linarith)

/-! ### Claim theorems for the octolinear router -/

/-- C1: for every pair of points that are not aligned horizontally, vertically
or at 45 degrees within the router tolerance, getOctolinearSegment returns the
two endpoints plus one elbow, and both sub-segments (p1 to elbow, elbow to p2)
are horizontal, vertical, or at exactly 45 degrees. -/
theorem claim_router_elbow_octolinear (p1 p2 : Pt) (alt : Bool)
    (h1 : 1 ≤ |p2.x - p1.x|) (h2 : 1 ≤ |p2.y - p1.y|)
    (h3 : 1 ≤ abs (|p2.x - p1.x| - |p2.y - p1.y|)) :
    ∃ m : Pt, getOctolinearSegment p1 p2 alt = [p1, m, p2] ∧
      IsOctoDir p1 m ∧ IsOctoDir m p2 := by
  have h1q : 1 ≤ qabs (p2.x - p1.x) := by rw [qabs_eq]; exact h1
  have h2q : 1 ≤ qabs (p2.y - p1.y) := by rw [qabs_eq]; exact h2
  have h3q : 1 ≤ qabs (qabs (p2.x - p1.x) - qabs (p2.y - p1.y)) := by
    rw [qabs_eq, qabs_eq, qabs_eq]; exact h3
  have hdx : p2.x - p1.x ≠ 0 := by
    intro hc
    rw [hc] at h1q
    norm_num [qabs] at h1q
  have hdy : p2.y - p1.y ≠ 0 := by
    intro hc
    rw [hc] at h2q
    norm_num [qabs] at h2q
  have huv : qabs (p2.x - p1.x) ≠ qabs (p2.y - p1.y) := by
    intro hc
    rw [hc, sub_self] at h3q
    norm_num [qabs] at h3q
  have hd1 : p2.y - p1.y - (p2.x - p1.x) ≠ 0 := by
    intro hc
    exact huv (by rw [show p2.x - p1.x = p2.y - p1.y from by linarith])
  have hd2 : p2.y - p1.y + (p2.x - p1.x) ≠ 0 := by
    intro hc
    apply huv
    rw [show p2.y - p1.y = -(p2.x - p1.x) from by linarith, qabs_neg]
  have hcand := octoCandidates_eq p1 p2 hdx hdy hd1 hd2
  obtain ⟨ch, cv, hchmem, hcvmem, _, _, _, hf, ht, _⟩ := octo_core p1 p2 h1q h2q h3q
  rw [hcand] at hchmem hcvmem
  cases alt
  · obtain ⟨m, hpts, ho1, ho2⟩ := candList_octo p1 p2 hdx hdy hd1 hd2 ch hchmem
    exact ⟨m, by rw [hf, hpts], ho1, ho2⟩
  · obtain ⟨m, hpts, ho1, ho2⟩ := candList_octo p1 p2 hdx hdy hd1 hd2 cv hcvmem
    exact ⟨m, by rw [ht, hpts], ho1, ho2⟩

theorem claim_router_elbow_octolinear_witness :
    ∃ m : Pt,
      getOctolinearSegment ⟨0, 0⟩ ⟨100, 50⟩ false = [⟨0, 0⟩, m, ⟨100, 50⟩] ∧
      IsOctoDir ⟨0, 0⟩ m ∧ IsOctoDir m ⟨100, 50⟩ :=
  claim_router_elbow_octolinear ⟨0, 0⟩ ⟨100, 50⟩ false (by norm_num) (by norm_num)
    (by norm_num)

/-- C3: for every pair of points already aligned horizontally, vertically, or
at exactly 45 degrees within the router tolerance, getOctolinearSegment
returns exactly the two endpoints, regardless of the alternate flag. -/
theorem claim_router_aligned_direct (p1 p2 : Pt) (alt : Bool)
    (h : |p2.x - p1.x| < 1 ∨ |p2.y - p1.y| < 1 ∨
      abs (|p2.x - p1.x| - |p2.y - p1.y|) < 1) :
    getOctolinearSegment p1 p2 alt = [p1, p2] := by
  unfold getOctolinearSegment
  rw [if_pos]
  simpa only [qabs_eq] using h

theorem claim_router_aligned_direct_witness :
    getOctolinearSegment ⟨0, 0⟩ ⟨80, 80⟩ true = [⟨0, 0⟩, ⟨80, 80⟩] :=
  claim_router_aligned_direct ⟨0, 0⟩ ⟨80, 80⟩ true (by norm_num)

/-- C4: for every non-degenerate non-aligned (diagonal) point pair, the
alternate flag selects the other symmetric elbow candidate: a different elbow
point, the same two endpoints, and the same total path length. -/
theorem claim_router_alternate_flip (p1 p2 : Pt)
    (h1 : 1 ≤ |p2.x - p1.x|) (h2 : 1 ≤ |p2.y - p1.y|)
    (h3 : 1 ≤ abs (|p2.x - p1.x| - |p2.y - p1.y|)) :
    ∃ e0 e1 : Pt,
      getOctolinearSegment p1 p2 false = [p1, e0, p2] ∧
      getOctolinearSegment p1 p2 true = [p1, e1, p2] ∧
      e0 ≠ e1 ∧
      segLenR p1 e0 + segLenR e0 p2 = segLenR p1 e1 + segLenR e1 p2 := by
  have h1q : 1 ≤ qabs (p2.x - p1.x) := by rw [qabs_eq]; exact h1
  have h2q : 1 ≤ qabs (p2.y - p1.y) := by rw [qabs_eq]; exact h2
  have h3q : 1 ≤ qabs (qabs (p2.x - p1.x) - qabs (p2.y - p1.y)) := by
    rw [qabs_eq, qabs_eq, qabs_eq]; exact h3
  obtain ⟨ch, cv, _, _, _, _, _, hf, ht, mh, mv, hp1, hp2, hne, hlen⟩ :=
    octo_core p1 p2 h1q h2q h3q
  exact ⟨mh, mv, by rw [hf, hp1], by rw [ht, hp2], hne, hlen⟩

theorem claim_router_alternate_flip_witness :
    ∃ e0 e1 : Pt,
      getOctolinearSegment ⟨0, 0⟩ ⟨100, 50⟩ false = [⟨0, 0⟩, e0, ⟨100, 50⟩] ∧
      getOctolinearSegment ⟨0, 0⟩ ⟨100, 50⟩ true = [⟨0, 0⟩, e1, ⟨100, 50⟩] ∧
      e0 ≠ e1 ∧
      segLenR ⟨0, 0⟩ e0 + segLenR e0 ⟨100, 50⟩ =
        segLenR ⟨0, 0⟩ e1 + segLenR e1 ⟨100, 50⟩ :=
  claim_router_alternate_flip ⟨0, 0⟩ ⟨100, 50⟩ (by norm_num) (by norm_num) (by norm_num)


/-! ### Claims about the parallel offset resolver -/

/-- C9: the offset resolver is symmetric under endpoint swap, because the
lookup key is normalized from the two rounded point keys independently of
direction. -/
theorem claim_offset_swap (reg : List (String × List String)) (p1 p2 : Pt)
    (lid : String) :
    getLineOffset reg p1 p2 lid = getLineOffset reg p2 p1 lid := by
  have hkey : segKey p1 p2 = segKey p2 p1 := by
    unfold segKey
    rcases lt_trichotomy (pointKey p1) (pointKey p2) with h | h | h
    · rw [if_pos h, if_neg (not_lt.mpr h.le)]
    · rw [h]
    · rw [if_neg (not_lt.mpr h.le), if_pos h]
  unfold getLineOffset
  rw [hkey]

theorem indexOf_eq_of_get? {l : List String} (hnd : l.Nodup) :
    ∀ {i : ℕ} {a : String}, l.get? i = some a → l.indexOf a = i := by
  induction l with
  | nil => intro i a h; simp at h
  | cons b t ih =>
    intro i a h
    cases i with
    | zero =>
      simp only [List.get?_cons_zero, Option.some.injEq] at h
      subst h
      exact List.indexOf_cons_self _ _
    | succ n =>
      simp only [List.get?_cons_succ] at h
      have hat : a ∈ t := List.get?_mem h
      have hban : b ≠ a := by
        rintro rfl
        exact (List.nodup_cons.mp hnd).1 hat
      rw [List.indexOf_cons_ne t hban, ih (List.nodup_cons.mp hnd).2 h]

/-- C2: for a geometric segment shared by n lines, the offset of the line at
zero-based rank i of the sorted bundle is (i - (n-1)/2) * LINE_SPACING; in
consequence the offsets of ranks i and n-1-i sum to zero, and consecutive
ranks differ by exactly the spacing constant. -/
theorem claim_offset_formula (reg : List (String × List String)) (p1 p2 : Pt)
    (L : List String) (i j : ℕ) (lid lid2 : String)
    (hreg : regFind reg (segKey p1 p2) = some L) (hnd : L.Nodup)
    (hi : L.get? i = some lid) :
    getLineOffset reg p1 p2 lid
      = ((i : ℚ) - ((L.length : ℚ) - 1) / 2) * LINE_SPACING ∧
    (L.get? j = some lid2 → i + j = L.length - 1 →
      getLineOffset reg p1 p2 lid + getLineOffset reg p1 p2 lid2 = 0) ∧
    (L.get? (i + 1) = some lid2 →
      getLineOffset reg p1 p2 lid2 - getLineOffset reg p1 p2 lid = LINE_SPACING) := by
  have hmem : lid ∈ L := List.get?_mem hi
  have hidx := indexOf_eq_of_get? hnd hi
  have hbase : getLineOffset reg p1 p2 lid
      = ((i : ℚ) - ((L.length : ℚ) - 1) / 2) * LINE_SPACING := by
    unfold getLineOffset
    rw [hreg]
    simp only [hmem, if_pos, hidx]
  refine ⟨hbase, ?_, ?_⟩
  · intro hj hsum
    have hmem2 : lid2 ∈ L := List.get?_mem hj
    have hidx2 := indexOf_eq_of_get? hnd hj
    have hbase2 : getLineOffset reg p1 p2 lid2
        = ((j : ℚ) - ((L.length : ℚ) - 1) / 2) * LINE_SPACING := by
      unfold getLineOffset
      rw [hreg]
      simp only [hmem2, if_pos, hidx2]
    have hlen1 : 1 ≤ L.length := by
      rcases L with _ | ⟨a, t⟩
      · simp at hmem
      · simp
    have hsumq : (i : ℚ) + (j : ℚ) = (L.length : ℚ) - 1 := by
      have : i + j = L.length - 1 := hsum
      have h2 : (i + j : ℕ) + 1 = L.length := by omega
      have h3 : ((i + j : ℕ) : ℚ) + 1 = (L.length : ℚ) := by exact_mod_cast h2
      push_cast at h3
      linarith
    rw [hbase, hbase2]
    unfold LINE_SPACING
    field_simp
    linarith
  · intro hj
    have hmem2 : lid2 ∈ L := List.get?_mem hj
    have hidx2 := indexOf_eq_of_get? hnd hj
    have hbase2 : getLineOffset reg p1 p2 lid2
        = (((i + 1 : ℕ) : ℚ) - ((L.length : ℚ) - 1) / 2) * LINE_SPACING := by
      unfold getLineOffset
      rw [hreg]
      simp only [hmem2, if_pos, hidx2]
    rw [hbase, hbase2]
    unfold LINE_SPACING
    push_cast
    ring

theorem claim_offset_formula_witness :
    getLineOffset [(segKey ⟨0, 0⟩ ⟨100, 0⟩, ["a", "b", "c"])] ⟨0, 0⟩ ⟨100, 0⟩ "a" = -7 ∧
    getLineOffset [(segKey ⟨0, 0⟩ ⟨100, 0⟩, ["a", "b", "c"])] ⟨0, 0⟩ ⟨100, 0⟩ "a" +
      getLineOffset [(segKey ⟨0, 0⟩ ⟨100, 0⟩, ["a", "b", "c"])] ⟨0, 0⟩ ⟨100, 0⟩ "c" = 0 ∧
    getLineOffset [(segKey ⟨0, 0⟩ ⟨100, 0⟩, ["a", "b", "c"])] ⟨0, 0⟩ ⟨100, 0⟩ "b" -
      getLineOffset [(segKey ⟨0, 0⟩ ⟨100, 0⟩, ["a", "b", "c"])] ⟨0, 0⟩ ⟨100, 0⟩ "a" = 7 := by
  have hreg : regFind [(segKey ⟨0, 0⟩ ⟨100, 0⟩, ["a", "b", "c"])]
      (segKey ⟨0, 0⟩ ⟨100, 0⟩) = some ["a", "b", "c"] := by
    simp [regFind]
  have h1 := claim_offset_formula _ ⟨0, 0⟩ ⟨100, 0⟩ ["a", "b", "c"] 0 2 "a" "c" hreg
    (by decide) rfl
  have h2 := claim_offset_formula _ ⟨0, 0⟩ ⟨100, 0⟩ ["a", "b", "c"] 0 0 "a" "b" hreg
    (by decide) rfl
  refine ⟨?_, ?_, ?_⟩
  · rw [h1.1]
    norm_num [LINE_SPACING]
  · exact h1.2.1 rfl (by norm_num)
  · have := h2.2.2 rfl
    simpa [LINE_SPACING] using this

/-! ### Claims about totality and fallbacks of the core geometry -/

theorem octoCandidates_shape (p1 p2 : Pt) :
    ∀ c ∈ octoCandidates p1 p2, ∃ m : Pt, c.points = [p1, m, p2] := by
  intro c hc
  simp only [octoCandidates, tryPath, List.mem_cons, List.not_mem_nil, or_false] at hc
  rcases hc with rfl | rfl | rfl | rfl | rfl | rfl | rfl | rfl <;> exact ⟨_, rfl⟩

/-- C8: the cited degenerate inputs take explicit fallbacks: parallel
directions make getLineIntersection return the first point, an empty survivor
list makes the router return the direct two-point segment, and the router
always returns either the two endpoints or the endpoints plus one elbow. -/
theorem claim_core_total (p1 d1 p2 d2 : PtR) (q1 q2 : Pt) (alt : Bool)
    (hpar : |d1.x * d2.y - d1.y * d2.x| < 1 / 10000) :
    getLineIntersection p1 d1 p2 d2 = p1 ∧
    (octoValid q1 q2 = [] → getOctolinearSegment q1 q2 alt = [q1, q2]) ∧
    (getOctolinearSegment q1 q2 alt = [q1, q2] ∨
      ∃ m : Pt, getOctolinearSegment q1 q2 alt = [q1, m, q2]) := by
  refine ⟨?_, ?_, ?_⟩
  · unfold getLineIntersection
    rw [if_pos hpar]
  · intro hval
    unfold getOctolinearSegment
    split_ifs <;> rfl
  · unfold getOctolinearSegment
    split_ifs with ha hv
    · exact Or.inl rfl
    · exact Or.inl rfl
    · right
      have hvne : octoValid q1 q2 ≠ [] := hv
      have hsne : octoSorted q1 q2 ≠ [] := by
        intro hc
        apply hvne
        have := (jsSort_perm lenLe (octoValid q1 q2)).length_eq
        rw [show octoSorted q1 q2 = jsSort lenLe (octoValid q1 q2) from rfl] at hc
        rw [hc] at this
        exact List.eq_nil_of_length_eq_zero this.symm
      have hP : absLt1 ((octoSorted q1 q2).headI.len - octoShortest q1 q2) = true := by
        unfold octoShortest
        rw [RootTwo.sub_def]
        simp only [sub_self]
        exact absLt1_zero
      have hbmem : (octoSorted q1 q2).headI ∈ octoBest q1 q2 :=
        List.mem_filter.mpr ⟨headI_mem hsne, hP⟩
      have hbne : octoBest q1 q2 ≠ [] := List.ne_nil_of_mem hbmem
      have hfne : jsSort (famLe alt) (octoBest q1 q2) ≠ [] := by
        intro hc
        apply hbne
        have := (jsSort_perm (famLe alt) (octoBest q1 q2)).length_eq
        rw [hc] at this
        exact List.eq_nil_of_length_eq_zero this.symm
      have hmem : (jsSort (famLe alt) (octoBest q1 q2)).headI ∈ octoBest q1 q2 :=
        (jsSort_perm _ _).mem_iff.mp (headI_mem hfne)
      have hmem2 : (jsSort (famLe alt) (octoBest q1 q2)).headI ∈ octoSorted q1 q2 :=
        (List.mem_filter.mp hmem).1
      have hmem3 : (jsSort (famLe alt) (octoBest q1 q2)).headI ∈ octoValid q1 q2 :=
        (jsSort_perm lenLe (octoValid q1 q2)).mem_iff.mp hmem2
      have hmem4 : (jsSort (famLe alt) (octoBest q1 q2)).headI ∈ octoCandidates q1 q2 := by
        unfold octoValid at hmem3
        exact (List.mem_filter.mp hmem3).1
      obtain ⟨m, hm⟩ := octoCandidates_shape q1 q2 _ hmem4
      exact ⟨m, hm⟩

theorem claim_core_total_witness :
    getLineIntersection ⟨0, 0⟩ ⟨1, 0⟩ ⟨5, 5⟩ ⟨2, 0⟩ = ⟨0, 0⟩ ∧
    (octoValid ⟨0, 0⟩ ⟨0, 0⟩ = [] →
      getOctolinearSegment ⟨0, 0⟩ ⟨0, 0⟩ false = [⟨0, 0⟩, ⟨0, 0⟩]) ∧
    (getOctolinearSegment ⟨0, 0⟩ ⟨0, 0⟩ false = [⟨0, 0⟩, ⟨0, 0⟩] ∨
      ∃ m : Pt, getOctolinearSegment ⟨0, 0⟩ ⟨0, 0⟩ false = [⟨0, 0⟩, m, ⟨0, 0⟩]) :=
  claim_core_total ⟨0, 0⟩ ⟨1, 0⟩ ⟨5, 5⟩ ⟨2, 0⟩ ⟨0, 0⟩ ⟨0, 0⟩ false (by norm_num)

/-! ### Claim about station deletion -/

/-- C5: deleting a station removes its id from every remaining line, removes
every line left without stations, and keeps a line left with exactly one
station, whose composed drawable path is empty. -/
theorem claim_delete_station (stations : List Station) (lines : List Line)
    (id : String) :
    (∀ l ∈ (handleDeleteStation stations lines id).2,
      id ∉ l.stationIds ∧ l.stationIds ≠ []) ∧
    (∀ l ∈ lines,
      (l.stationIds.filter fun sid => decide (sid ≠ id)) ≠ [] →
      { l with stationIds := l.stationIds.filter fun sid => decide (sid ≠ id) } ∈
        (handleDeleteStation stations lines id).2) ∧
    (∀ l ∈ lines,
      (l.stationIds.filter fun sid => decide (sid ≠ id)).length = 1 →
      { l with stationIds := l.stationIds.filter fun sid => decide (sid ≠ id) } ∈
        (handleDeleteStation stations lines id).2 ∧
      ∀ (reg : List (String × List String)) (stations2 : List Station),
        getLinePath reg stations2
          { l with stationIds := l.stationIds.filter fun sid => decide (sid ≠ id) } = []) := by
  refine ⟨?_, ?_, ?_⟩
  · intro l hl
    unfold handleDeleteStation at hl
    have hl2 := List.mem_filter.mp hl
    obtain ⟨l0, _, rfl⟩ := List.mem_map.mp hl2.1
    constructor
    · intro hmem
      have := List.mem_filter.mp hmem
      simp at this
    · have := hl2.2
      simp only [decide_eq_true_eq] at this
      intro hc
      have hc2 : (l0.stationIds.filter fun sid => decide (sid ≠ id)) = [] := hc
      rw [hc2] at this
      simp at this
  · intro l hl hne
    unfold handleDeleteStation
    refine List.mem_filter.mpr ⟨List.mem_map.mpr ⟨l, hl, rfl⟩, ?_⟩
    simp only [decide_eq_true_eq]
    exact List.length_pos.mpr hne
  · intro l hl hlen
    constructor
    · unfold handleDeleteStation
      refine List.mem_filter.mpr ⟨List.mem_map.mpr ⟨l, hl, rfl⟩, ?_⟩
      simp only [decide_eq_true_eq]
      omega
    · intro reg stations2
      have hle := List.length_filterMap_le
        (fun sid => stations2.find? fun s => s.id == sid)
        (l.stationIds.filter fun sid => decide (sid ≠ id))
      have hlt : (lineStations stations2
          { l with stationIds := l.stationIds.filter fun sid => decide (sid ≠ id) }).length
          < 2 := by
        show ((l.stationIds.filter fun sid => decide (sid ≠ id)).filterMap
          (fun sid => stations2.find? fun s => s.id == sid)).length < 2
        omega
      simp only [getLinePath]
      rw [if_pos hlt]

theorem claim_delete_station_witness :
    (∀ l ∈ (handleDeleteStation
        [⟨"s1", "A", 0, 0, StationType.circle⟩, ⟨"s2", "B", 100, 0, StationType.circle⟩]
        [⟨"l1", "L1", "#fff", 6, ["s1", "s2"], false, false⟩]
        "s2").2,
      "s2" ∉ l.stationIds ∧ l.stationIds ≠ []) ∧
    (∀ l ∈ [(⟨"l1", "L1", "#fff", 6, ["s1", "s2"], false, false⟩ : Line)],
      (l.stationIds.filter fun sid => decide (sid ≠ "s2")) ≠ [] →
      { l with stationIds := l.stationIds.filter fun sid => decide (sid ≠ "s2") } ∈
        (handleDeleteStation
          [⟨"s1", "A", 0, 0, StationType.circle⟩, ⟨"s2", "B", 100, 0, StationType.circle⟩]
          [⟨"l1", "L1", "#fff", 6, ["s1", "s2"], false, false⟩]
          "s2").2) ∧
    (∀ l ∈ [(⟨"l1", "L1", "#fff", 6, ["s1", "s2"], false, false⟩ : Line)],
      (l.stationIds.filter fun sid => decide (sid ≠ "s2")).length = 1 →
      { l with stationIds := l.stationIds.filter fun sid => decide (sid ≠ "s2") } ∈
        (handleDeleteStation
          [⟨"s1", "A", 0, 0, StationType.circle⟩, ⟨"s2", "B", 100, 0, StationType.circle⟩]
          [⟨"l1", "L1", "#fff", 6, ["s1", "s2"], false, false⟩]
          "s2").2 ∧
      ∀ (reg : List (String × List String)) (stations2 : List Station),
        getLinePath reg stations2
          { l with stationIds := l.stationIds.filter fun sid => decide (sid ≠ "s2") } = []) :=
  claim_delete_station
    [⟨"s1", "A", 0, 0, StationType.circle⟩, ⟨"s2", "B", 100, 0, StationType.circle⟩]
    [⟨"l1", "L1", "#fff", 6, ["s1", "s2"], false, false⟩]
    "s2"


/-! ### Claims about the segment registry -/

theorem foldl_inv {α β : Type} {P : β → Prop} (f : β → α → β)
    (hf : ∀ r a, P r → P (f r a)) :
    ∀ (l : List α) (init : β), P init → P (l.foldl f init) := by
  intro l
  induction l with
  | nil => intro init h; exact h
  | cons a t ih => intro init h; exact ih (f init a) (hf init a h)

theorem reg_unique {reg : List (String × List String)}
    (hk : (reg.map Prod.fst).Nodup) {e : String × List String} (he : e ∈ reg) :
    regFind reg e.1 = some e.2 := by
  induction reg with
  | nil => simp at he
  | cons x t ih =>
    rw [List.map_cons, List.nodup_cons] at hk
    rcases List.mem_cons.mp he with rfl | het
    · unfold regFind
      rw [List.find?_cons_of_pos _ (by simp)]
      rfl
    · have hx : ¬ (x.1 == e.1) = true := by
        simp only [beq_iff_eq]
        intro hc
        exact hk.1 (hc ▸ List.mem_map.mpr ⟨e, het, rfl⟩)
      have hstep : List.find? (fun y : String × List String => y.1 == e.1) (x :: t)
          = List.find? (fun y : String × List String => y.1 == e.1) t :=
        List.find?_cons_of_neg t hx
      unfold regFind
      rw [hstep]
      exact ih hk.2 het

theorem regAdd_none {reg : List (String × List String)} {k lid : String}
    (h : regFind reg k = none) : regAdd reg k lid = reg ++ [(k, [lid])] := by
  unfold regAdd
  rw [h]

theorem regAdd_some {reg : List (String × List String)} {k lid : String}
    {l : List String} (h : regFind reg k = some l) :
    regAdd reg k lid = if lid ∈ l then reg
      else reg.map fun e => if e.1 == k then (e.1, e.2 ++ [lid]) else e := by
  unfold regAdd
  rw [h]

theorem regAdd_inv {reg : List (String × List String)} {k lid : String}
    (h : RegNodup reg) : RegNodup (regAdd reg k lid) := by
  cases hfind : regFind reg k with
  | none =>
    rw [regAdd_none hfind]
    have hknew : k ∉ reg.map Prod.fst := by
      intro hmem
      obtain ⟨e, he, hek⟩ := List.mem_map.mp hmem
      unfold regFind at hfind
      cases hf2 : List.find? (fun y : String × List String => y.1 == k) reg with
      | none =>
        have := List.find?_eq_none.mp hf2 e he
        simp [hek] at this
      | some v =>
        rw [hf2] at hfind
        simp at hfind
    constructor
    · rw [List.map_append]
      simp [List.nodup_append, h.1, hknew]
    · intro e he
      rcases List.mem_append.mp he with h1 | h2
      · exact h.2 e h1
      · simp only [List.mem_singleton] at h2
        rw [h2]
        exact List.nodup_singleton lid
  | some l =>
    rw [regAdd_some hfind]
    split_ifs with hmem
    · exact h
    · constructor
      · have hmapkeys :
            ((reg.map fun e => if e.1 == k then (e.1, e.2 ++ [lid]) else e).map Prod.fst)
              = reg.map Prod.fst := by
          rw [List.map_map]
          apply List.map_congr_left
          intro e _
          simp only [Function.comp]
          by_cases hek : (e.1 == k) = true
          · rw [if_pos hek]
          · rw [if_neg hek]
        rw [hmapkeys]
        exact h.1
      · intro e he
        obtain ⟨e0, he0, heq⟩ := List.mem_map.mp he
        by_cases hek : (e0.1 == k) = true
        · rw [if_pos hek] at heq
          have hkey : e0.1 = k := by simpa using hek
          have hl : e0.2 = l := by
            have hu := reg_unique h.1 he0
            rw [hkey, hfind] at hu
            exact (Option.some.inj hu).symm
          rw [← heq]
          refine List.Nodup.append (h.2 e0 he0) (List.nodup_singleton lid) ?_
          intro a ha hamem
          rw [List.mem_singleton] at hamem
          rw [hamem, hl] at ha
          exact hmem ha
        · rw [if_neg hek] at heq
          rw [← heq]
          exact h.2 e0 he0

theorem register_inv {reg : List (String × List String)} {pA pB : Pt}
    {lid : String} (h : RegNodup reg) : RegNodup (register reg pA pB lid) := by
  unfold register
  split_ifs
  · exact h
  · exact regAdd_inv h

theorem registerPolyline_inv {reg : List (String × List String)} {pts : List Pt}
    {lid : String} (h : RegNodup reg) : RegNodup (registerPolyline reg pts lid) :=
  foldl_inv _ (fun r ab hr => register_inv hr) _ _ h

theorem registerHops_inv {reg : List (String × List String)}
    {coords : List Station} {alt : Bool} {lid : String} (h : RegNodup reg) :
    RegNodup (registerHops reg coords alt lid) :=
  foldl_inv _ (fun r ab hr => registerPolyline_inv hr) _ _ h

theorem registerLine_inv {reg : List (String × List String)}
    {stations : List Station} {l : Line} (h : RegNodup reg) :
    RegNodup (registerLine reg stations l) := by
  unfold registerLine
  split_ifs
  · exact h
  · exact h
  · exact registerPolyline_inv (registerHops_inv h)
  · exact registerHops_inv h

/-- C7: every key binding of the built segment registry lists its line ids in
ascending order without duplicates, so the bundle ordering read by the offset
resolver is canonical and independent of insertion order. -/
theorem claim_registry_sorted (stations : List Station) (lines : List Line) :
    (segmentRegistry stations lines).Forall fun e =>
      e.2.Sorted (fun a b : String => a ≤ b) ∧ e.2.Nodup := by
  rw [List.forall_iff_forall_mem]
  intro e he
  unfold segmentRegistry at he
  obtain ⟨e0, he0, rfl⟩ := List.mem_map.mp he
  have hbuild : RegNodup (lines.foldl (fun r l => registerLine r stations l) []) :=
    foldl_inv _ (fun r l hr => registerLine_inv hr) _ _
      ⟨List.nodup_nil, fun e he => absurd he (List.not_mem_nil e)⟩
  constructor
  · have hs := jsSort_sorted (fun a b : String => decide (a ≤ b)) e0.2
      (fun a b c hab hbc => by
        simp only [decide_eq_true_eq] at hab hbc ⊢
        exact le_trans hab hbc)
      (fun a b => by
        simp only [decide_eq_true_eq]
        exact le_total a b)
    exact hs.imp fun hab => of_decide_eq_true hab
  · exact ((jsSort_perm (fun a b : String => decide (a ≤ b)) e0.2).nodup_iff).mpr
      (hbuild.2 e0 he0)


/-! ### Claims about the station shape classifier -/

theorem scanBundle_nil (stations : List Station) (st : Station) (bd : Option PtR) :
    scanBundle stations st [] bd = bd := rfl

open Classical in
theorem scanBundle_cons (stations : List Station) (st : Station) (l : Line)
    (ls : List Line) (bd : Option PtR) :
    scanBundle stations st (l :: ls) bd
      = match lineThrough stations st l with
        | none => none
        | some dOut =>
          match bd with
          | none => scanBundle stations st ls (some dOut)
          | some b =>
            if dotR b dOut < 99 / 100 then none
            else scanBundle stations st ls (some b) := rfl

theorem getDir_unit (p q : Pt) :
    getDir p q = ⟨0, 0⟩ ∨ dotR (getDir p q) (getDir p q) = 1 := by
  unfold getDir
  split_ifs with hd
  · exact Or.inl rfl
  · right
    unfold dotR
    have hnn : (0:ℝ) ≤ ((q.x - p.x : ℚ) : ℝ) ^ 2 + ((q.y - p.y : ℚ) : ℝ) ^ 2 := by
      positivity
    have hsq := Real.sq_sqrt hnn
    have hpos : (0:ℝ) <
        Real.sqrt (((q.x - p.x : ℚ) : ℝ) ^ 2 + ((q.y - p.y : ℚ) : ℝ) ^ 2) :=
      lt_of_lt_of_le (by norm_num) (not_lt.mp hd)
    show ((q.x - p.x : ℚ) : ℝ) / _ * (((q.x - p.x : ℚ) : ℝ) / _)
        + ((q.y - p.y : ℚ) : ℝ) / _ * (((q.y - p.y : ℚ) : ℝ) / _) = 1
    rw [div_mul_div_comm, div_mul_div_comm, div_add_div_same,
      Real.mul_self_sqrt hnn,
      div_eq_one_iff_eq (Real.sqrt_pos.mp hpos).ne.symm]
    ring

theorem lineThrough_some {stations : List Station} {st : Station} {l : Line}
    {d : PtR} (h : lineThrough stations st l = some d) :
    d = lineOutDir stations st l ∧ dotR d d = 1 := by
  unfold lineThrough at h
  split at h
  next pp pn hp hn =>
    split_ifs at h with hdot
    have hd : d = getDir st.pt pn := (Option.some.inj h).symm
    constructor
    · rw [hd]
      unfold lineOutDir
      rw [hn]
    · rcases getDir_unit st.pt pn with hz | hu
      · exfalso
        apply hdot
        rw [hz]
        unfold dotR
        norm_num
      · rw [hd]
        exact hu
  next hboth =>
    exact absurd h (by simp)

theorem scan_some_iff (stations : List Station) (st : Station) :
    ∀ (ls : List Line) (b c : PtR),
      (scanBundle stations st ls (some b) = some c ↔
        (c = b ∧ ∀ l ∈ ls, ∃ d, lineThrough stations st l = some d ∧
          ¬ dotR b d < 99 / 100)) := by
  intro ls
  induction ls with
  | nil =>
    intro b c
    rw [scanBundle_nil]
    simp [eq_comm]
  | cons l ls ih =>
    intro b c
    cases hlt : lineThrough stations st l with
    | none =>
      have hred : scanBundle stations st (l :: ls) (some b) = none := by
        rw [scanBundle_cons, hlt]
      rw [hred]
      constructor
      · intro h
        exact absurd h (by simp)
      · rintro ⟨rfl, hall⟩
        obtain ⟨d, hd, -⟩ := hall l (List.mem_cons_self l ls)
        rw [hlt] at hd
        exact absurd hd (by simp)
    | some dOut =>
      have hred : scanBundle stations st (l :: ls) (some b)
          = if dotR b dOut < 99 / 100 then none
            else scanBundle stations st ls (some b) := by
        rw [scanBundle_cons, hlt]
      rw [hred]
      split_ifs with hdot
      · constructor
        · intro h
          exact absurd h (by simp)
        · rintro ⟨rfl, hall⟩
          obtain ⟨d, hd, hnd⟩ := hall l (List.mem_cons_self l ls)
          rw [hlt] at hd
          rw [← Option.some.inj hd] at hnd
          exact hnd hdot
      · rw [ih b c]
        constructor
        · rintro ⟨rfl, hall⟩
          refine ⟨rfl, ?_⟩
          intro l2 hl2
          rcases List.mem_cons.mp hl2 with rfl | hl2t
          · exact ⟨dOut, hlt, hdot⟩
          · exact hall l2 hl2t
        · rintro ⟨rfl, hall⟩
          exact ⟨rfl, fun l2 hl2 => hall l2 (List.mem_cons.mpr (Or.inr hl2))⟩

theorem scan_start_iff (stations : List Station) (st : Station) (l0 : Line)
    (ls : List Line) (c : PtR) :
    scanBundle stations st (l0 :: ls) none = some c ↔
      (lineThrough stations st l0 = some c ∧
        ∀ l ∈ ls, ∃ d, lineThrough stations st l = some d ∧
          ¬ dotR c d < 99 / 100) := by
  cases hlt : lineThrough stations st l0 with
  | none =>
    have hred : scanBundle stations st (l0 :: ls) none = none := by
      rw [scanBundle_cons, hlt]
    rw [hred]
    simp [hlt]
  | some d0 =>
    have hred : scanBundle stations st (l0 :: ls) none
        = scanBundle stations st ls (some d0) := by
      rw [scanBundle_cons, hlt]
    rw [hred, scan_some_iff]
    constructor
    · rintro ⟨rfl, hall⟩
      exact ⟨rfl, hall⟩
    · rintro ⟨hc, hall⟩
      obtain rfl := Option.some.inj hc
      exact ⟨rfl, hall⟩

/-- C6: a station renders as a pill exactly when at least two lines touch it
and every touching line passes straight through it with an outgoing direction
compatible (dot at least 0.99) with the first touching line's direction; on
success the pill angle is the angle of the normal of that shared direction. -/
theorem claim_station_pill (stations : List Station) (lines : List Line)
    (st : Station) :
    ((getStationShape stations lines st).kind = ShapeKind.pill ↔
      (2 ≤ (lines.filter fun l => decide (st.id ∈ l.stationIds)).length ∧
        ∀ l ∈ lines.filter fun l => decide (st.id ∈ l.stationIds),
          ∃ d, lineThrough stations st l = some d ∧
            99 / 100 ≤ dotR (lineOutDir stations st
              (lines.filter fun l => decide (st.id ∈ l.stationIds)).headI) d)) ∧
    ((getStationShape stations lines st).kind = ShapeKind.pill →
      (getStationShape stations lines st).angle
        = jsAtan2
            (getNormal (lineOutDir stations st
              (lines.filter fun l => decide (st.id ∈ l.stationIds)).headI)).y
            (getNormal (lineOutDir stations st
              (lines.filter fun l => decide (st.id ∈ l.stationIds)).headI)).x
          * 180 / Real.pi) := by
  by_cases hlen : (lines.filter fun l => decide (st.id ∈ l.stationIds)).length < 2
  · have hshape : getStationShape stations lines st = ⟨ShapeKind.standard, 1, 0⟩ := by
      unfold getStationShape
      rw [if_pos hlen]
    rw [hshape]
    constructor
    · exact iff_of_false (by simp) (fun hr => absurd hr.1 (by omega))
    · intro hk
      exact absurd hk (by simp)
  · obtain ⟨l0, ls, hP⟩ : ∃ l0 ls,
        (lines.filter fun l => decide (st.id ∈ l.stationIds)) = l0 :: ls := by
      cases hc : lines.filter fun l => decide (st.id ∈ l.stationIds) with
      | nil =>
        rw [hc] at hlen
        simp at hlen
      | cons a t => exact ⟨a, t, rfl⟩
    have hhead : (lines.filter fun l => decide (st.id ∈ l.stationIds)).headI = l0 := by
      rw [hP]
      rfl
    cases hscan : scanBundle stations st
        (lines.filter fun l => decide (st.id ∈ l.stationIds)) none with
    | none =>
      have hshape : getStationShape stations lines st
          = ⟨ShapeKind.standard,
              (lines.filter fun l => decide (st.id ∈ l.stationIds)).length, 0⟩ := by
        unfold getStationShape
        rw [if_neg hlen, hscan]
      rw [hshape]
      constructor
      · refine iff_of_false (by simp) ?_
        rintro ⟨-, hall⟩
        obtain ⟨d0, hd0, -⟩ := hall l0 (by rw [hP]; exact List.mem_cons_self l0 ls)
        have hb0 : d0 = lineOutDir stations st l0 := (lineThrough_some hd0).1
        have hscan2 : scanBundle stations st (l0 :: ls) none = some d0 := by
          rw [scan_start_iff]
          refine ⟨hd0, ?_⟩
          intro l hl
          obtain ⟨d, hd, hge⟩ := hall l
            (by rw [hP]; exact List.mem_cons.mpr (Or.inr hl))
          refine ⟨d, hd, not_lt.mpr ?_⟩
          rw [hb0, ← hhead]
          exact hge
        rw [hP] at hscan
        rw [hscan] at hscan2
        exact absurd hscan2 (by simp)
      · intro hk
        exact absurd hk (by simp)
    | some bd =>
      have hshape : getStationShape stations lines st
          = ⟨ShapeKind.pill,
              (lines.filter fun l => decide (st.id ∈ l.stationIds)).length,
              jsAtan2 (getNormal bd).y (getNormal bd).x * 180 / Real.pi⟩ := by
        unfold getStationShape
        rw [if_neg hlen, hscan]
      have hscan2 := hscan
      rw [hP, scan_start_iff] at hscan2
      obtain ⟨hl0, hall⟩ := hscan2
      have hbd := lineThrough_some hl0
      have hbdir : bd = lineOutDir stations st
          (lines.filter fun l => decide (st.id ∈ l.stationIds)).headI := by
        rw [hhead]
        exact hbd.1
      rw [hshape]
      constructor
      · refine iff_of_true rfl ⟨by omega, ?_⟩
        intro l hl
        rw [hP] at hl
        rcases List.mem_cons.mp hl with rfl | hlt
        · exact ⟨bd, hl0, by rw [← hbdir]; rw [hbd.2]; norm_num⟩
        · obtain ⟨d, hd, hnd⟩ := hall l hlt
          exact ⟨d, hd, by rw [← hbdir]; exact not_lt.mp hnd⟩
      · rintro -
        rw [← hbdir]


/-! ### The shape classifier reads the first occurrence of a station id -/

theorem indexOf_append_cons {a : String} {pre : List String} (h : a ∉ pre)
    (t : List String) : (pre ++ a :: t).indexOf a = pre.length := by
  induction pre with
  | nil => simpa using List.indexOf_cons_self a t
  | cons p ps ih =>
    have hpa : p ≠ a := fun hc => h (hc ▸ List.mem_cons_self p ps)
    have hnp : a ∉ ps := fun hc => h (List.mem_cons_of_mem p hc)
    rw [List.cons_append, List.indexOf_cons_ne _ hpa, ih hnp]
    rfl

theorem get?_agree (pre : List String) (a b : String) (t t' : List String) :
    ∀ k : ℕ, k < pre.length + 2 →
      (pre ++ a :: b :: t).get? k = (pre ++ a :: b :: t').get? k := by
  induction pre with
  | nil =>
    intro k hk
    cases k with
    | zero => rfl
    | succ k1 =>
      cases k1 with
      | zero => rfl
      | succ k2 =>
        exfalso
        simp only [List.length_nil] at hk
        omega
  | cons p ps ih =>
    intro k hk
    cases k with
    | zero => rfl
    | succ k1 =>
      simp only [List.cons_append, List.get?_cons_succ]
      apply ih
      simp only [List.length_cons] at hk
      omega

theorem linePrevPt_congr (stations : List Station) (st : Station) (la lb : Line)
    (pre : List String) (s1 : String) (rest rest' : List String)
    (hia : la.stationIds = pre ++ st.id :: s1 :: rest)
    (hib : lb.stationIds = pre ++ st.id :: s1 :: rest')
    (hca : la.closedLoop = false) (hcb : lb.closedLoop = false)
    (halt : la.alternateRoute = lb.alternateRoute)
    (hpre : st.id ∉ pre) :
    linePrevPt stations st la = linePrevPt stations st lb := by
  unfold linePrevPt
  rw [hia, hib, hca, hcb, halt,
    indexOf_append_cons hpre (s1 :: rest), indexOf_append_cons hpre (s1 :: rest')]
  by_cases hpre0 : pre.length ≠ 0
  · rw [if_pos hpre0, if_pos hpre0,
      get?_agree pre st.id s1 rest rest' (pre.length - 1) (by omega)]
  · rw [if_neg hpre0, if_neg hpre0]
    simp

theorem lineNextPt_congr (stations : List Station) (st : Station) (la lb : Line)
    (pre : List String) (s1 : String) (rest rest' : List String)
    (hia : la.stationIds = pre ++ st.id :: s1 :: rest)
    (hib : lb.stationIds = pre ++ st.id :: s1 :: rest')
    (halt : la.alternateRoute = lb.alternateRoute)
    (hpre : st.id ∉ pre) :
    lineNextPt stations st la = lineNextPt stations st lb := by
  unfold lineNextPt
  rw [hia, hib, halt,
    indexOf_append_cons hpre (s1 :: rest), indexOf_append_cons hpre (s1 :: rest')]
  rw [if_pos (by simp only [List.length_append, List.length_cons]; omega),
    if_pos (by simp only [List.length_append, List.length_cons]; omega)]
  rw [get?_agree pre st.id s1 rest rest' (pre.length + 1) (by omega)]

theorem lineThrough_congr (stations : List Station) (st : Station) (la lb : Line)
    (pre : List String) (s1 : String) (rest rest' : List String)
    (hia : la.stationIds = pre ++ st.id :: s1 :: rest)
    (hib : lb.stationIds = pre ++ st.id :: s1 :: rest')
    (hca : la.closedLoop = false) (hcb : lb.closedLoop = false)
    (halt : la.alternateRoute = lb.alternateRoute)
    (hpre : st.id ∉ pre) :
    lineThrough stations st la = lineThrough stations st lb := by
  unfold lineThrough
  rw [linePrevPt_congr stations st la lb pre s1 rest rest' hia hib hca hcb halt hpre,
    lineNextPt_congr stations st la lb pre s1 rest rest' hia hib halt hpre]

theorem scanBundle_congr (stations : List Station) (st : Station) :
    ∀ (xs : List Line) (a b : Line) (ys : List Line) (bd : Option PtR),
      lineThrough stations st a = lineThrough stations st b →
      scanBundle stations st (xs ++ a :: ys) bd
        = scanBundle stations st (xs ++ b :: ys) bd := by
  intro xs
  induction xs with
  | nil =>
    intro a b ys bd hab
    rw [List.nil_append, List.nil_append, scanBundle_cons, scanBundle_cons, hab]
  | cons x xs ih =>
    intro a b ys bd hab
    rw [List.cons_append, List.cons_append, scanBundle_cons, scanBundle_cons]
    cases hx : lineThrough stations st x with
    | none => rfl
    | some dOut =>
      cases bd with
      | none =>
        show scanBundle stations st (xs ++ a :: ys) (some dOut)
          = scanBundle stations st (xs ++ b :: ys) (some dOut)
        exact ih a b ys (some dOut) hab
      | some b0 =>
        show (if dotR b0 dOut < 99 / 100 then none
            else scanBundle stations st (xs ++ a :: ys) (some b0))
          = (if dotR b0 dOut < 99 / 100 then none
            else scanBundle stations st (xs ++ b :: ys) (some b0))
        rw [ih a b ys (some b0) hab]

/-- C10: amended statement: for an open line, the station ids strictly after
the immediate successor of the first occurrence of the station's id never
influence the shape classification; the original claim fails for closed
loops, where the wrap-around neighbor is read from the last position even
when the first occurrence is elsewhere (claim_first_occurrence_cex). -/
theorem claim_first_occurrence (stations : List Station) (st : Station)
    (lines1 lines2 : List Line) (l : Line) (pre : List String) (s1 : String)
    (rest rest' : List String) (hopen : l.closedLoop = false)
    (hpre : st.id ∉ pre) :
    getStationShape stations
        (lines1 ++ { l with stationIds := pre ++ st.id :: s1 :: rest } :: lines2) st
      = getStationShape stations
        (lines1 ++ { l with stationIds := pre ++ st.id :: s1 :: rest' } :: lines2) st := by
  have hthru : lineThrough stations st
      { l with stationIds := pre ++ st.id :: s1 :: rest }
      = lineThrough stations st { l with stationIds := pre ++ st.id :: s1 :: rest' } :=
    lineThrough_congr stations st _ _ pre s1 rest rest' rfl rfl hopen hopen rfl hpre
  have hfil : ∀ t : List String,
      ((lines1 ++ { l with stationIds := pre ++ st.id :: s1 :: t } :: lines2).filter
        fun l2 => decide (st.id ∈ l2.stationIds))
      = (lines1.filter fun l2 => decide (st.id ∈ l2.stationIds))
        ++ { l with stationIds := pre ++ st.id :: s1 :: t }
          :: (lines2.filter fun l2 => decide (st.id ∈ l2.stationIds)) := by
    intro t
    rw [List.filter_append, List.filter_cons, if_pos (by simp)]
  unfold getStationShape
  rw [hfil rest, hfil rest',
    scanBundle_congr stations st _ _ _ _ none hthru]
  simp only [List.length_append, List.length_cons]

theorem claim_first_occurrence_witness :
    getStationShape [stS, stA, stB]
        ([] ++ { lineL1 with stationIds := [] ++ stS.id :: "a" :: ["x"] } :: []) stS
      = getStationShape [stS, stA, stB]
        ([] ++ { lineL1 with stationIds := [] ++ stS.id :: "a" :: ["y"] } :: []) stS :=
  claim_first_occurrence [stS, stA, stB] stS [] [] lineL1 [] "a" ["x"] ["y"] rfl
    (by simp)


theorem octo_aligned (p1 p2 : Pt) (alt : Bool)
    (h : |p2.x - p1.x| < 1 ∨ |p2.y - p1.y| < 1 ∨
      abs (|p2.x - p1.x| - |p2.y - p1.y|) < 1) :
    getOctolinearSegment p1 p2 alt = [p1, p2] := by
  unfold getOctolinearSegment
  rw [if_pos]
  simpa only [qabs_eq] using h

theorem octo_BS : getOctolinearSegment ⟨-1, 0⟩ ⟨0, 0⟩ false = [⟨-1, 0⟩, ⟨0, 0⟩] :=
  octo_aligned _ _ _ (by norm_num)

theorem octo_SA : getOctolinearSegment ⟨0, 0⟩ ⟨1, 0⟩ false = [⟨0, 0⟩, ⟨1, 0⟩] :=
  octo_aligned _ _ _ (by norm_num)

theorem octo_SS : getOctolinearSegment ⟨0, 0⟩ ⟨0, 0⟩ false = [⟨0, 0⟩, ⟨0, 0⟩] :=
  octo_aligned _ _ _ (by norm_num)

theorem getDir_eval_BS : getDir ⟨-1, 0⟩ ⟨0, 0⟩ = ⟨1, 0⟩ := by
  unfold getDir
  norm_num [Real.sqrt_one]

theorem getDir_eval_SA : getDir ⟨0, 0⟩ ⟨1, 0⟩ = ⟨1, 0⟩ := by
  unfold getDir
  norm_num [Real.sqrt_one]

theorem getDir_eval_SS : getDir ⟨0, 0⟩ ⟨0, 0⟩ = ⟨0, 0⟩ := by
  unfold getDir
  norm_num [Real.sqrt_zero]

theorem prev_L1 : linePrevPt [stS, stA, stB] stS lineL1 = some ⟨-1, 0⟩ := by
  unfold linePrevPt
  rw [show (if lineL1.stationIds.indexOf stS.id ≠ 0 then
        (lineL1.stationIds.get? (lineL1.stationIds.indexOf stS.id - 1)).bind fun sid =>
          List.find? (fun s => s.id == sid) [stS, stA, stB]
      else if lineL1.closedLoop then
        (lineL1.stationIds.get? (lineL1.stationIds.length - 1)).bind fun sid =>
          List.find? (fun s => s.id == sid) [stS, stA, stB]
      else none) = some stB from by decide]
  rw [Option.map_some']
  rw [show stB.pt = (⟨-1, 0⟩ : Pt) from rfl, show stS.pt = (⟨0, 0⟩ : Pt) from rfl,
    show lineL1.alternateRoute = false from rfl, octo_BS]
  rfl

theorem next_L1 : lineNextPt [stS, stA, stB] stS lineL1 = some ⟨1, 0⟩ := by
  unfold lineNextPt
  rw [show (if lineL1.stationIds.indexOf stS.id ≠ lineL1.stationIds.length - 1 then
        (lineL1.stationIds.get? (lineL1.stationIds.indexOf stS.id + 1)).bind fun sid =>
          List.find? (fun s => s.id == sid) [stS, stA, stB]
      else if lineL1.closedLoop then
        (lineL1.stationIds.get? 0).bind fun sid =>
          List.find? (fun s => s.id == sid) [stS, stA, stB]
      else none) = some stA from by decide]
  rw [Option.map_some']
  rw [show stA.pt = (⟨1, 0⟩ : Pt) from rfl, show stS.pt = (⟨0, 0⟩ : Pt) from rfl,
    show lineL1.alternateRoute = false from rfl, octo_SA]
  rfl

theorem prev_L2loop : linePrevPt [stS, stA, stB] stS lineL2loop = some ⟨0, 0⟩ := by
  unfold linePrevPt
  rw [show (if lineL2loop.stationIds.indexOf stS.id ≠ 0 then
        (lineL2loop.stationIds.get? (lineL2loop.stationIds.indexOf stS.id - 1)).bind
          fun sid => List.find? (fun s => s.id == sid) [stS, stA, stB]
      else if lineL2loop.closedLoop then
        (lineL2loop.stationIds.get? (lineL2loop.stationIds.length - 1)).bind fun sid =>
          List.find? (fun s => s.id == sid) [stS, stA, stB]
      else none) = some stS from by decide]
  rw [Option.map_some']
  rw [show stS.pt = (⟨0, 0⟩ : Pt) from rfl,
    show lineL2loop.alternateRoute = false from rfl, octo_SS]
  rfl

theorem next_L2loop : lineNextPt [stS, stA, stB] stS lineL2loop = some ⟨1, 0⟩ := by
  unfold lineNextPt
  rw [show (if lineL2loop.stationIds.indexOf stS.id ≠ lineL2loop.stationIds.length - 1 then
        (lineL2loop.stationIds.get? (lineL2loop.stationIds.indexOf stS.id + 1)).bind
          fun sid => List.find? (fun s => s.id == sid) [stS, stA, stB]
      else if lineL2loop.closedLoop then
        (lineL2loop.stationIds.get? 0).bind fun sid =>
          List.find? (fun s => s.id == sid) [stS, stA, stB]
      else none) = some stA from by decide]
  rw [Option.map_some']
  rw [show stA.pt = (⟨1, 0⟩ : Pt) from rfl, show stS.pt = (⟨0, 0⟩ : Pt) from rfl,
    show lineL2loop.alternateRoute = false from rfl, octo_SA]
  rfl

theorem prev_L2open : linePrevPt [stS, stA, stB] stS lineL2open = some ⟨-1, 0⟩ := by
  unfold linePrevPt
  rw [show (if lineL2open.stationIds.indexOf stS.id ≠ 0 then
        (lineL2open.stationIds.get? (lineL2open.stationIds.indexOf stS.id - 1)).bind
          fun sid => List.find? (fun s => s.id == sid) [stS, stA, stB]
      else if lineL2open.closedLoop then
        (lineL2open.stationIds.get? (lineL2open.stationIds.length - 1)).bind fun sid =>
          List.find? (fun s => s.id == sid) [stS, stA, stB]
      else none) = some stB from by decide]
  rw [Option.map_some']
  rw [show stB.pt = (⟨-1, 0⟩ : Pt) from rfl, show stS.pt = (⟨0, 0⟩ : Pt) from rfl,
    show lineL2open.alternateRoute = false from rfl, octo_BS]
  rfl

theorem next_L2open : lineNextPt [stS, stA, stB] stS lineL2open = some ⟨1, 0⟩ := by
  unfold lineNextPt
  rw [show (if lineL2open.stationIds.indexOf stS.id ≠ lineL2open.stationIds.length - 1 then
        (lineL2open.stationIds.get? (lineL2open.stationIds.indexOf stS.id + 1)).bind
          fun sid => List.find? (fun s => s.id == sid) [stS, stA, stB]
      else if lineL2open.closedLoop then
        (lineL2open.stationIds.get? 0).bind fun sid =>
          List.find? (fun s => s.id == sid) [stS, stA, stB]
      else none) = some stA from by decide]
  rw [Option.map_some']
  rw [show stA.pt = (⟨1, 0⟩ : Pt) from rfl, show stS.pt = (⟨0, 0⟩ : Pt) from rfl,
    show lineL2open.alternateRoute = false from rfl, octo_SA]
  rfl

theorem thru_L1 : lineThrough [stS, stA, stB] stS lineL1 = some ⟨1, 0⟩ := by
  unfold lineThrough
  rw [prev_L1, next_L1]
  show (if dotR (getDir ⟨-1, 0⟩ stS.pt) (getDir stS.pt ⟨1, 0⟩) < 99 / 100 then none
      else some (getDir stS.pt ⟨1, 0⟩)) = some ⟨1, 0⟩
  rw [show stS.pt = (⟨0, 0⟩ : Pt) from rfl, getDir_eval_BS, getDir_eval_SA]
  rw [if_neg (by unfold dotR; norm_num)]

theorem thru_L2loop : lineThrough [stS, stA, stB] stS lineL2loop = none := by
  unfold lineThrough
  rw [prev_L2loop, next_L2loop]
  show (if dotR (getDir ⟨0, 0⟩ stS.pt) (getDir stS.pt ⟨1, 0⟩) < 99 / 100 then none
      else some (getDir stS.pt ⟨1, 0⟩)) = none
  rw [show stS.pt = (⟨0, 0⟩ : Pt) from rfl, getDir_eval_SS, getDir_eval_SA]
  rw [if_pos (by unfold dotR; norm_num)]

theorem thru_L2open : lineThrough [stS, stA, stB] stS lineL2open = some ⟨1, 0⟩ := by
  unfold lineThrough
  rw [prev_L2open, next_L2open]
  show (if dotR (getDir ⟨-1, 0⟩ stS.pt) (getDir stS.pt ⟨1, 0⟩) < 99 / 100 then none
      else some (getDir stS.pt ⟨1, 0⟩)) = some ⟨1, 0⟩
  rw [show stS.pt = (⟨0, 0⟩ : Pt) from rfl, getDir_eval_BS, getDir_eval_SA]
  rw [if_neg (by unfold dotR; norm_num)]

theorem scan_std : scanBundle [stS, stA, stB] stS [lineL1, lineL2loop] none = none := by
  rw [scanBundle_cons, thru_L1]
  show scanBundle [stS, stA, stB] stS [lineL2loop] (some ⟨1, 0⟩) = none
  rw [scanBundle_cons, thru_L2loop]

theorem scan_pill : scanBundle [stS, stA, stB] stS [lineL1, lineL2open] none
    = some ⟨1, 0⟩ := by
  rw [scanBundle_cons, thru_L1]
  show scanBundle [stS, stA, stB] stS [lineL2open] (some ⟨1, 0⟩) = some ⟨1, 0⟩
  rw [scanBundle_cons, thru_L2open]
  show (if dotR ⟨1, 0⟩ ⟨1, 0⟩ < 99 / 100 then none
      else scanBundle [stS, stA, stB] stS [] (some ⟨1, 0⟩)) = some ⟨1, 0⟩
  rw [if_neg (by unfold dotR; norm_num), scanBundle_nil]

/-- C10 counterexample: two closed loops that agree on the position of the
first occurrence of the station id, on the entries up to and including its
successor, on their length and on being closed, and differ only at the last
position — which in one of them is a later occurrence of the id — classify
the station differently, so a later occurrence does influence the decision. -/
theorem claim_first_occurrence_cex :
    (getStationShape [stS, stA, stB] [lineL1, lineL2loop] stS).kind
        = ShapeKind.standard ∧
    (getStationShape [stS, stA, stB] [lineL1, lineL2open] stS).kind
        = ShapeKind.pill ∧
    lineL2loop.stationIds.indexOf stS.id = lineL2open.stationIds.indexOf stS.id ∧
    lineL2loop.stationIds.take 2 = lineL2open.stationIds.take 2 ∧
    lineL2loop.stationIds.length = lineL2open.stationIds.length ∧
    lineL2loop.closedLoop = lineL2open.closedLoop := by
  refine ⟨?_, ?_, by decide, by decide, by decide, by decide⟩
  · have hpass : ([lineL1, lineL2loop].filter fun l => decide (stS.id ∈ l.stationIds))
        = [lineL1, lineL2loop] := by decide
    unfold getStationShape
    rw [hpass, if_neg (by decide), scan_std]
  · have hpass : ([lineL1, lineL2open].filter fun l => decide (stS.id ∈ l.stationIds))
        = [lineL1, lineL2open] := by decide
    unfold getStationShape
    rw [hpass, if_neg (by decide), scan_pill]

end TransitCreator
